import Mathlib

/-!
Shallow embedding of the Music_Visualization frequency-analysis core
(`src/octave_processor_2/frequency-processor.js`, `CircularBuffer.js`,
`filter.js`) and verification of the specification's claims about it.

Modelling conventions:
* JavaScript numbers are modelled by exact rationals (`ℚ`).  The claims
  verified here are structural (lengths, counts, control flow, which
  slots are read or written), so exact arithmetic is a faithful model.
* The transcendental library functions (`Math.sin`, `Math.cos`,
  `Math.pow`, `Math.log2`, `Math.sqrt`) and the constant `Math.PI` are
  not rational; they are modelled by an explicit oracle record `JsMath`
  that every definition touching them takes as a parameter.  Theorems
  either hold for every oracle or state the needed algebraic facts about
  the oracle as hypotheses.  `Math.pow(2, k)` with a natural exponent is
  exact in IEEE doubles for the exponents in range here, so powers of
  two that the source computes that way are modelled as `2 ^ k` directly.
* `Float32Array` is modelled as `List ℚ`; JavaScript arrays of fixed
  length are lists.  The `hist` field of `CircularBuffer` is a
  specification ghost (the sequence of all values ever written, oldest
  first); no operation of the source reads it.
* JavaScript `throw` is modelled with `Except String`.
-/

attribute [local semireducible] Rat.mul Rat.inv Rat.add Rat.sub

set_option maxRecDepth 100000

/-- `Math.floor` on an exact rational (`⌊q⌋`, in a form the kernel can
evaluate: the denominator is positive, so integer `/` floors). -/
def jsFloor (q : ℚ) : ℤ := q.num / q.den

/-- `Math.ceil` on an exact rational (`⌈q⌉`). -/
def jsCeil (q : ℚ) : ℤ := -jsFloor (-q)

/-- `Math.min` on rationals (definitionally an `if`, so it evaluates). -/
def jsMinQ (a b : ℚ) : ℚ := if a ≤ b then a else b

/-- `Math.max` on rationals. -/
def jsMaxQ (a b : ℚ) : ℚ := if a ≤ b then b else a

/-- Oracle for the transcendental parts of the JavaScript `Math` object. -/
structure JsMath where
  sin : ℚ → ℚ
  cos : ℚ → ℚ
  pow : ℚ → ℚ → ℚ
  log2 : ℚ → ℚ
  sqrt : ℚ → ℚ
  pi : ℚ

/-! ### CircularBuffer (`src/unnamed/part_009`, `CircularBuffer.js`) -/

/-- State of `CircularBuffer`.  `buffer` is the `Float32Array` storage,
`size` its capacity, `writeIndex` and `filled` as in the source.  `hist`
is a specification ghost recording every value ever written. -/
structure CircularBuffer where
  buffer : List ℚ
  size : ℕ
  writeIndex : ℕ
  filled : Bool
  hist : List ℚ
deriving DecidableEq

instance : Inhabited CircularBuffer := ⟨⟨[], 0, 0, false, []⟩⟩

/-- A freshly allocated buffer: `Float32Array(size)` is zero-initialised. -/
def CircularBuffer.mkEmpty (size : ℕ) : CircularBuffer :=
  ⟨List.replicate size 0, size, 0, false, []⟩

/-- The constructor: throws unless the size is a positive integer. -/
def CircularBuffer.make (size : ℕ) : Except String CircularBuffer :=
  if size = 0 then .error "Buffer size must be a positive integer"
  else .ok (CircularBuffer.mkEmpty size)

/-- `write(value)`: store at `writeIndex`, advance modulo `size`, set
`filled` when the index wraps to 0. -/
def CircularBuffer.write (b : CircularBuffer) (x : ℚ) : CircularBuffer :=
  { b with
    buffer := b.buffer.set b.writeIndex x
    writeIndex := (b.writeIndex + 1) % b.size
    filled := if (b.writeIndex + 1) % b.size = 0 then true else b.filled
    hist := b.hist ++ [x] }

/-- `writeAll(values)`. -/
def CircularBuffer.writeAll (b : CircularBuffer) (xs : List ℚ) : CircularBuffer :=
  xs.foldl CircularBuffer.write b

/-- The buffer obtained by writing the history `xs` into a fresh buffer
of capacity `size`; every buffer the program ever produces has this form. -/
def CircularBuffer.fromHistory (size : ℕ) (xs : List ℚ) : CircularBuffer :=
  (CircularBuffer.mkEmpty size).writeAll xs

/-- `getValidCount()`. -/
def CircularBuffer.getValidCount (b : CircularBuffer) : ℕ :=
  if b.filled then b.size else b.writeIndex

/-- `read(index)`: throws when `index < 0 || index >= this.size`,
otherwise reads slot `(writeIndex - 1 - index + size) % size`.  The JS
index arithmetic is reproduced in `ℕ` as
`(writeIndex + (size - 1 - index)) % size`, which is the same integer
whenever `0 ≤ index < size`. -/
def CircularBuffer.read (b : CircularBuffer) (index : ℤ) : Except String ℚ :=
  if index < 0 ∨ (b.size : ℤ) ≤ index then .error "Index out of range"
  else .ok (b.buffer.getD ((b.writeIndex + (b.size - 1 - index.toNat)) % b.size) 0)

/-- `isFull()`. -/
def CircularBuffer.isFull (b : CircularBuffer) : Bool := b.filled

/-- `getBuffer()`: returns the raw underlying storage array. -/
def CircularBuffer.getBuffer (b : CircularBuffer) : List ℚ := b.buffer

/-- `getOrdered()`: chronological (oldest-to-newest) view. -/
def CircularBuffer.getOrdered (b : CircularBuffer) : List ℚ :=
  if b.filled = false then b.buffer.take b.writeIndex
  else b.buffer.drop b.writeIndex ++ b.buffer.take b.writeIndex

/-- `clear()`: zero the storage and reset the indices (and the ghost). -/
def CircularBuffer.clear (b : CircularBuffer) : CircularBuffer :=
  { b with buffer := List.replicate b.size 0, writeIndex := 0, filled := false, hist := [] }

/-- One step of the `max()` scan; `none` plays the role of `-Infinity`. -/
def maxStep (acc : Option ℚ) (v : ℚ) : Option ℚ :=
  match acc with
  | none => some v
  | some a => if a < v then some v else some a

/-- One step of the `min()` scan; `none` plays the role of `Infinity`. -/
def minStep (acc : Option ℚ) (v : ℚ) : Option ℚ :=
  match acc with
  | none => some v
  | some a => if v < a then some v else some a

/-- `max()`: 0 when empty, otherwise a scan over the WHOLE storage
(`for i < this.size`), not just the valid range. -/
def CircularBuffer.max (b : CircularBuffer) : ℚ :=
  if b.getValidCount = 0 then 0 else (b.buffer.foldl maxStep none).getD 0

/-- `min()`: 0 when empty, otherwise a scan over the WHOLE storage. -/
def CircularBuffer.min (b : CircularBuffer) : ℚ :=
  if b.getValidCount = 0 then 0 else (b.buffer.foldl minStep none).getD 0

/-- `average()`: sums storage slots `0 .. validCount-1`. -/
def CircularBuffer.average (b : CircularBuffer) : ℚ :=
  if b.getValidCount = 0 then 0
  else (∑ i ∈ Finset.range b.getValidCount, b.buffer.getD i 0) / b.getValidCount

/-- `rms()`: `Math.sqrt` of the mean of squares over slots
`0 .. validCount-1`. -/
def CircularBuffer.rms (m : JsMath) (b : CircularBuffer) : ℚ :=
  if b.getValidCount = 0 then 0
  else m.sqrt ((∑ i ∈ Finset.range b.getValidCount, b.buffer.getD i 0 * b.buffer.getD i 0) / b.getValidCount)

/-! ### Biquad and Butterworth filters (`src/unnamed/part_002`, `filter.js`) -/

/-- `BiquadFilter`: normalized coefficients and the two Direct Form II
delay elements. -/
structure BiquadFilter where
  b0 : ℚ
  b1 : ℚ
  b2 : ℚ
  a1 : ℚ
  a2 : ℚ
  z1 : ℚ
  z2 : ℚ
deriving DecidableEq

instance : Inhabited BiquadFilter := ⟨⟨0, 0, 0, 0, 0, 0, 0⟩⟩

/-- `BiquadFilter.process(input)`: Direct Form II step, returning the
output and the updated filter. -/
def BiquadFilter.process (f : BiquadFilter) (input : ℚ) : ℚ × BiquadFilter :=
  let w := input - f.a1 * f.z1 - f.a2 * f.z2
  let output := f.b0 * w + f.b1 * f.z1 + f.b2 * f.z2
  (output, { f with z2 := f.z1, z1 := w })

/-- `BiquadFilter.reset()`. -/
def BiquadFilter.reset (f : BiquadFilter) : BiquadFilter :=
  { f with z1 := 0, z2 := 0 }

/-- The three filter types of `ButterworthFilter`. -/
inductive FilterType where
  | lowpass : FilterType
  | highpass : FilterType
  | bandpass : FilterType
deriving DecidableEq

/-- The biquad sections computed by
`ButterworthFilter._calculateCoefficients()`.  `sec` ranges over the
`order/2` sections; all transcendental evaluations go through the
oracle `m`. -/
def butterworthStages (m : JsMath) (type : FilterType) (period Q : ℚ) (order : ℕ) :
    List BiquadFilter :=
  (List.range (order / 2)).map (fun sec =>
    let normalizedFreq := 1 / period
    let w0 := 2 * m.pi * normalizedFreq
    let cosw0 := m.cos w0
    let poleAngle := m.pi * (2 * sec + 1) / (2 * order)
    let sectionQ : ℚ :=
      match type with
      | .bandpass => Q * (1 + sec / 10)
      | _ => (1 / (2 * m.cos poleAngle)) * (Q / (7071 / 10000))
    let alpha := m.sin w0 / (2 * sectionQ)
    let a0 := 1 + alpha
    let a1 := -2 * cosw0
    let a2 := 1 - alpha
    let bs : ℚ × ℚ × ℚ :=
      match type with
      | .lowpass => ((1 - cosw0) / 2, 1 - cosw0, (1 - cosw0) / 2)
      | .highpass => ((1 + cosw0) / 2, -(1 + cosw0), (1 + cosw0) / 2)
      | .bandpass => (alpha, 0, -alpha)
    ⟨bs.1 / a0, bs.2.1 / a0, bs.2.2 / a0, a1 / a0, a2 / a0, 0, 0⟩)

/-- `ButterworthFilter` state. -/
structure ButterworthFilter where
  type : FilterType
  periodInSamples : ℚ
  Q : ℚ
  order : ℕ
  stages : List BiquadFilter
deriving DecidableEq

instance : Inhabited ButterworthFilter := ⟨⟨.bandpass, 0, 0, 0, []⟩⟩

/-- Building a `ButterworthFilter` once the order is known to be even
(the constructor body after its validity check). -/
def ButterworthFilter.make (m : JsMath) (type : FilterType) (period Q : ℚ) (order : ℕ) :
    ButterworthFilter :=
  ⟨type, period, Q, order, butterworthStages m type period Q order⟩

/-- The `ButterworthFilter` constructor: the order defaults to 4 when
the argument is absent (`undefined`), and an odd order throws. -/
def ButterworthFilter.init (m : JsMath) (type : FilterType) (period Q : ℚ)
    (orderOpt : Option ℕ) : Except String ButterworthFilter :=
  let order := orderOpt.getD 4
  if order % 2 ≠ 0 then .error "Filter order must be even"
  else .ok (ButterworthFilter.make m type period Q order)

/-- `ButterworthFilter.process(input)`: feed through the cascade. -/
def ButterworthFilter.process (f : ButterworthFilter) (x : ℚ) : ℚ × ButterworthFilter :=
  let out := f.stages.foldl (fun (acc : ℚ × List BiquadFilter) stage =>
    let r := stage.process acc.1
    (r.1, acc.2 ++ [r.2])) (x, [])
  (out.1, { f with stages := out.2 })

/-- `ButterworthFilter.reset()`. -/
def ButterworthFilter.reset (f : ButterworthFilter) : ButterworthFilter :=
  { f with stages := f.stages.map BiquadFilter.reset }

/-- Process a list of samples in order, collecting the outputs. -/
def ButterworthFilter.processList (f : ButterworthFilter) (xs : List ℚ) :
    List ℚ × ButterworthFilter :=
  xs.foldl (fun (acc : List ℚ × ButterworthFilter) x =>
    let r := acc.2.process x
    (acc.1 ++ [r.1], r.2)) ([], f)

/-- `ButterworthFilter.processBuffer(inputBuffer)`: reset, then process
every sample. -/
def ButterworthFilter.processBuffer (f : ButterworthFilter) (xs : List ℚ) :
    List ℚ × ButterworthFilter :=
  f.reset.processList xs

/-! ### FilterBank (`filter.js`) -/

/-- `FilterBank._calculateQFromOverlap(percentOverlap)`. -/
def calculateQFromOverlap (m : JsMath) (minS maxS : ℚ) (numFilters : ℕ)
    (percentOverlap : ℚ) : ℚ :=
  let overlapFraction := jsMaxQ 0 (jsMinQ 99 percentOverlap) / 100
  let r := m.pow (maxS / minS) (1 / ((numFilters : ℚ) - 1))
  let overlapScaleFactor := 1 + overlapFraction
  let bwFactor := (r - 1) * overlapScaleFactor
  1 / bwFactor

/-- The center periods `minS * ratio^i` built by `_createFilters()`. -/
def filterBankCenters (m : JsMath) (minS maxS : ℚ) (numFilters : ℕ) : List ℚ :=
  let r := m.pow (maxS / minS) (1 / ((numFilters : ℚ) - 1))
  (List.range numFilters).map (fun i : ℕ => minS * m.pow r (i : ℚ))

/-- `FilterBank` state. -/
structure FilterBank where
  minSamplesPerPeriod : ℚ
  maxSamplesPerPeriod : ℚ
  numFilters : ℕ
  percentOverlap : ℚ
  filterOrder : ℕ
  Q : ℚ
  filters : List ButterworthFilter
  centerPeriods : List ℚ
deriving DecidableEq

instance : Inhabited FilterBank := ⟨⟨0, 0, 0, 0, 0, 0, [], []⟩⟩

/-- The `FilterBank` constructor.  The order argument defaults to 4 when
absent; parameter validation throws as in the source. -/
def FilterBank.init (m : JsMath) (minS maxS : ℚ) (numFilters : ℕ) (percentOverlap : ℚ)
    (orderOpt : Option ℕ) : Except String FilterBank :=
  let order := orderOpt.getD 4
  if maxS ≤ minS then .error "minSamplesPerPeriod must be less than maxSamplesPerPeriod"
  else if numFilters < 2 then .error "numFilters must be at least 2"
  else
    let q := calculateQFromOverlap m minS maxS numFilters percentOverlap
    let centers := filterBankCenters m minS maxS numFilters
    (centers.mapM (fun p => ButterworthFilter.init m .bandpass p q (some order))).map
      (fun filters => ⟨minS, maxS, numFilters, percentOverlap, order, q, filters, centers⟩)

/-- The energy vector of `FilterBank.processBuffer(buffer)`: per filter,
reset, filter every sample, and take the mean of squares. -/
def FilterBank.processBufferEnergies (bank : FilterBank) (buffer : List ℚ) : List ℚ :=
  bank.filters.map (fun f =>
    let filtered := (f.processBuffer buffer).1
    (filtered.map (fun y => y * y)).sum / (buffer.length : ℚ))

/-- The filter-state effect of `FilterBank.processBuffer(buffer)`: every
filter ends in the state reached by processing the whole buffer from a
reset state (the initial bulk reset is subsumed by the per-filter
reset inside `ButterworthFilter.processBuffer`). -/
def FilterBank.processBufferState (bank : FilterBank) (buffer : List ℚ) : FilterBank :=
  { bank with filters := bank.filters.map (fun f => (f.processBuffer buffer).2) }

/-- A detected peak as built by `FilterBank.findPeaks`. -/
structure Peak where
  index : ℕ
  period : ℚ
  energy : ℚ
deriving DecidableEq

/-- `FilterBank.findPeaks(energies, threshold)` (no `sampleRate`
argument is passed at the call sites modelled here): interior strict
local maxima above the absolute threshold. -/
def FilterBank.findPeaks (bank : FilterBank) (energies : List ℚ) (threshold : ℚ) :
    List Peak :=
  (List.range energies.length).filterMap (fun i =>
    if 1 ≤ i ∧ i + 1 < energies.length ∧ threshold < energies.getD i 0 ∧
        energies.getD (i - 1) 0 < energies.getD i 0 ∧
        energies.getD (i + 1) 0 < energies.getD i 0 then
      some ⟨i, bank.centerPeriods.getD i 0, energies.getD i 0⟩
    else none)

/-- `FilterBank.updateParameters(numFilters, percentOverlap, filterOrder)`
(the two period arguments are never passed at the modelled call site).
Field updates, validation, and the conditional rebuild as in the source. -/
def FilterBank.updateParameters (m : JsMath) (bank : FilterBank) (nf : Option ℕ)
    (po : Option ℚ) (fo : Option ℕ) : Except String FilterBank :=
  let step1 : Except String (FilterBank × Bool) :=
    match nf with
    | some n =>
      if n ≠ bank.numFilters then
        if n < 2 then .error "numFilters must be at least 2"
        else .ok ({ bank with numFilters := n }, true)
      else .ok (bank, false)
    | none => .ok (bank, false)
  step1.bind (fun s1 =>
    let s2 : FilterBank × Bool :=
      match po with
      | some p =>
        if p ≠ s1.1.percentOverlap then
          ({ s1.1 with
              percentOverlap := p
              Q := calculateQFromOverlap m s1.1.minSamplesPerPeriod s1.1.maxSamplesPerPeriod
                s1.1.numFilters p }, true)
        else (s1.1, s1.2)
      | none => (s1.1, s1.2)
    let s3 : FilterBank × Bool :=
      match fo with
      | some o =>
        if o ≠ s2.1.filterOrder then ({ s2.1 with filterOrder := o }, true)
        else (s2.1, s2.2)
      | none => (s2.1, s2.2)
    if s3.1.maxSamplesPerPeriod ≤ s3.1.minSamplesPerPeriod then
      .error "minSamplesPerPeriod must be less than maxSamplesPerPeriod"
    else if s3.2 then
      let centers := filterBankCenters m s3.1.minSamplesPerPeriod s3.1.maxSamplesPerPeriod
        s3.1.numFilters
      (centers.mapM (fun p =>
        ButterworthFilter.init m .bandpass p s3.1.Q (some s3.1.filterOrder))).map
        (fun filters => { s3.1 with filters := filters, centerPeriods := centers })
    else .ok s3.1)

/-! ### OctaveBufferManager (`frequency-processor.js`) -/

/-- The per-level decimation lowpass state, a zeroed `Float32Array(4)`:
slots 0,1 are the first stage delays and 2,3 the second stage delays. -/
structure LowpassState where
  s0 : ℚ
  s1 : ℚ
  s2 : ℚ
  s3 : ℚ
deriving DecidableEq

instance : Inhabited LowpassState := ⟨⟨0, 0, 0, 0⟩⟩

/-- The fixed decimation lowpass coefficients from
`_createLowpassFilters` (stage 1 then stage 2, each
`b0, b1, b2, a1, a2`), as exact decimals. -/
def lowpassCoeffsFixed : List ℚ :=
  [675/10000, 1349/10000, 675/10000, -11430/10000, 4128/10000,
   675/10000, 1349/10000, 675/10000, -10373/10000, 3071/10000]

/-- The two cascaded Direct Form II stages applied per input sample in
`processBlock` when `useLowPassFilter` is set. -/
def lowpassStep (coeffs : List ℚ) (st : LowpassState) (x : ℚ) : ℚ × LowpassState :=
  let w1 := x - coeffs.getD 3 0 * st.s0 - coeffs.getD 4 0 * st.s1
  let v1 := coeffs.getD 0 0 * w1 + coeffs.getD 1 0 * st.s0 + coeffs.getD 2 0 * st.s1
  let w2 := v1 - coeffs.getD 8 0 * st.s2 - coeffs.getD 9 0 * st.s3
  let v2 := coeffs.getD 5 0 * w2 + coeffs.getD 6 0 * st.s2 + coeffs.getD 7 0 * st.s3
  (v2, ⟨w1, st.s0, w2, st.s2⟩)

/-- The loop state of one octave level inside `processBlock`: lowpass
state, decimation counter, and the level's circular buffer. -/
structure LevelAcc where
  lpState : LowpassState
  counter : ℕ
  buffer : CircularBuffer
deriving DecidableEq

/-- One input sample at one octave level `k ≥ 1`: optionally lowpass,
increment the decimation counter, and write every `factor`-th sample. -/
def levelStep (useLP : Bool) (coeffs : List ℚ) (factor : ℕ) (acc : LevelAcc) (x : ℚ) :
    LevelAcc :=
  let vs := if useLP then lowpassStep coeffs acc.lpState x else (x, acc.lpState)
  let c2 := acc.counter + 1
  ⟨vs.2, c2, if c2 % factor = 0 then acc.buffer.write vs.1 else acc.buffer⟩

/-- The whole block at one octave level `k ≥ 1`. -/
def runLevel (useLP : Bool) (coeffs : List ℚ) (factor : ℕ) (acc : LevelAcc)
    (xs : List ℚ) : LevelAcc :=
  xs.foldl (levelStep useLP coeffs factor) acc

/-- State of `OctaveBufferManager`. -/
structure OBMState where
  sampleRate : ℚ
  minSamplesPerPeriod : ℕ
  maxSamplesPerPeriod : ℕ
  minPeriodsInBuffer : ℕ
  percentOverlap : ℚ
  bufferSize : ℕ
  numOctaves : ℕ
  octaveBuffers : List CircularBuffer
  octaveSampleRates : List ℚ
  filterBank : FilterBank
  decimationCounters : List ℕ
  lowpassFilters : List (List ℚ)
  filterStates : List LowpassState
deriving DecidableEq

instance : Inhabited OBMState :=
  ⟨⟨0, 0, 0, 0, 0, 0, 0, [], [], default, [], [], []⟩⟩

/-- The `OctaveBufferManager` constructor.  `numOctaves` is
`max(1, ceil(log2(max/min)) + 1)`; the per-octave sample rate divides by
`Math.pow(2, octave)` (exact, modelled as `2 ^ k`); buffer allocation
and the filter-bank constructor may throw. -/
def OctaveBufferManager.init (m : JsMath) (sampleRate : ℚ) (minS maxS minP numFilters : ℕ)
    (percentOverlap : ℚ) (orderOpt : Option ℕ) : Except String OBMState :=
  let bufferSize := 2 * minS * minP
  let numOctaves := (max 1 (jsCeil (m.log2 ((maxS : ℚ) / (minS : ℚ))) + 1)).toNat
  ((List.range numOctaves).mapM (fun _ => CircularBuffer.make bufferSize)).bind
    (fun buffers =>
      (FilterBank.init m (minS : ℚ) (maxS : ℚ) numFilters percentOverlap orderOpt).map
        (fun bank =>
          { sampleRate := sampleRate
            minSamplesPerPeriod := minS
            maxSamplesPerPeriod := maxS
            minPeriodsInBuffer := minP
            percentOverlap := percentOverlap
            bufferSize := bufferSize
            numOctaves := numOctaves
            octaveBuffers := buffers
            octaveSampleRates := (List.range numOctaves).map (fun k => sampleRate / 2 ^ k)
            filterBank := bank
            decimationCounters := List.replicate numOctaves 0
            lowpassFilters := List.replicate (numOctaves - 1) lowpassCoeffsFixed
            filterStates := List.replicate (numOctaves - 1) default }))

/-- The `LevelAcc` of octave `k ≥ 1` drawn from the manager state. -/
def OBMState.levelAcc (mgr : OBMState) (k : ℕ) : LevelAcc :=
  ⟨mgr.filterStates.getD (k - 1) default, mgr.decimationCounters.getD k 0,
    mgr.octaveBuffers.getD k default⟩

/-- `processBlock(inputBlock, useLowPassFilter)`: octave 0 receives the
raw samples; every octave `k ≥ 1` runs the block through its decimation
level.  The parallel arrays are rebuilt index-wise, which agrees with
the in-place JS mutation on every state whose arrays have the lengths
the constructor established. -/
def OBMState.processBlock (mgr : OBMState) (xs : List ℚ) (useLP : Bool) : OBMState :=
  let lvl := fun (k : ℕ) =>
    runLevel useLP (mgr.lowpassFilters.getD (k - 1) []) (2 ^ k) (mgr.levelAcc k) xs
  { mgr with
    octaveBuffers := List.ofFn (fun k : Fin mgr.numOctaves =>
      if k.val = 0 then (mgr.octaveBuffers.getD 0 default).writeAll xs
      else (lvl k.val).buffer)
    decimationCounters := List.ofFn (fun k : Fin mgr.numOctaves =>
      if k.val = 0 then mgr.decimationCounters.getD 0 0 else (lvl k.val).counter)
    filterStates := List.ofFn (fun j : Fin (mgr.numOctaves - 1) =>
      (lvl (j.val + 1)).lpState) }

/-- A sequence of `processBlock` calls. -/
def OBMState.processBlocks (mgr : OBMState) (blocks : List (List ℚ)) (useLP : Bool) :
    OBMState :=
  blocks.foldl (fun s b => s.processBlock b useLP) mgr

/-- `OctaveBufferManager.reset()`: clear every buffer, zero the
decimation counters and the per-level lowpass states.  The shared
`filterBank` is not touched. -/
def OBMState.reset (mgr : OBMState) : OBMState :=
  { mgr with
    octaveBuffers := mgr.octaveBuffers.map CircularBuffer.clear
    decimationCounters := mgr.decimationCounters.map (fun _ => 0)
    filterStates := mgr.filterStates.map (fun _ => default) }

/-! ### FrequencyAnalysisProcessor (`frequency-processor.js`) -/

/-- The buffer view handed to the analysis pipeline:
`const bufferData = buffer.getBuffer();` (line 718) — the raw storage
array, not the chronological `getOrdered()` view. -/
def analysisSnapshot (b : CircularBuffer) : List ℚ := b.getBuffer

/-- `expectedPeriod` in `measureFrequencyPrecise`. -/
def mfpExpectedPeriod (sampleRate estimatedFreq : ℚ) : ℤ :=
  jsFloor (sampleRate / estimatedFreq)

/-- `percentRange = min(25, max(5, 100 / filterQ))`. -/
def mfpPercentRange (filterQ : ℚ) : ℚ := jsMinQ 25 (jsMaxQ 5 (100 / filterQ))

/-- `rangeSamples = ceil(expectedPeriod * percentRange / 100)`. -/
def mfpRangeSamples (ep : ℤ) (filterQ : ℚ) : ℤ :=
  jsCeil ((ep : ℚ) * mfpPercentRange filterQ / 100)

/-- `minLag = max(1, expectedPeriod - rangeSamples)`. -/
def mfpMinLag (ep rs : ℤ) : ℤ := max 1 (ep - rs)

/-- `maxLag = min(floor(len/2), expectedPeriod + rangeSamples)`. -/
def mfpMaxLag (len : ℕ) (ep rs : ℤ) : ℤ := min (jsFloor ((len : ℚ) / 2)) (ep + rs)

/-- The autocorrelation sum at one lag, over `stu` products. -/
def corrAt (buffer : List ℚ) (stu : ℕ) (lag : ℕ) : ℚ :=
  ∑ i ∈ Finset.range stu, buffer.getD i 0 * buffer.getD (i + lag) 0

/-- The correlation loop of `measureFrequencyPrecise`: walks
`corrRange` lag indices from `lagIndex` upward; if at any lag fewer
than `expectedPeriod/2` products are available the whole call gives up
(`none`, which makes the caller return the unrefined estimate). -/
def mfpCorrLoop (buffer : List ℚ) (ep minLag : ℤ) : ℕ → ℕ → Option (List ℚ)
  | 0, _ => some []
  | n + 1, lagIndex =>
    let lag := minLag + lagIndex
    let stu := min ((buffer.length : ℤ) - lag) (3 * ep)
    if (stu : ℚ) < (ep : ℚ) / 2 then none
    else
      match mfpCorrLoop buffer ep minLag n (lagIndex + 1) with
      | none => none
      | some rest => some (corrAt buffer stu.toNat lag.toNat :: rest)

/-- The peak-index scan over the correlation array (`maxIndex`); only
strictly larger values replace the current best, so the first maximal
index wins, exactly as in the source loop. -/
def argmaxFrom (corr : List ℚ) : ℕ :=
  (List.range corr.length).foldl
    (fun best i => if corr.getD best 0 < corr.getD i 0 then i else best) 0

/-- `measureFrequencyPrecise(buffer, estimatedFreq, sampleRate, filterQ)`. -/
def measureFrequencyPrecise (buffer : List ℚ) (estimatedFreq sampleRate filterQ : ℚ) : ℚ :=
  let ep := mfpExpectedPeriod sampleRate estimatedFreq
  if ep ≤ 0 ∨ (buffer.length : ℚ) / 3 ≤ (ep : ℚ) then estimatedFreq
  else
    let rs := mfpRangeSamples ep filterQ
    let minLag := mfpMinLag ep rs
    let maxLag := mfpMaxLag buffer.length ep rs
    if maxLag ≤ minLag then estimatedFreq
    else
      let corrRange := (maxLag - minLag + 1).toNat
      match mfpCorrLoop buffer ep minLag corrRange 0 with
      | none => estimatedFreq
      | some corr =>
        let maxIndex := argmaxFrom corr
        let actualLag := minLag + (maxIndex : ℤ)
        if 0 < maxIndex ∧ maxIndex < corrRange - 1 then
          let y1 := corr.getD (maxIndex - 1) 0
          let y2 := corr.getD maxIndex 0
          let y3 := corr.getD (maxIndex + 1) 0
          let den := y1 - 2 * y2 + y3
          if 1 / 1000000 * |y2| < |den| then
            let offset := 1 / 2 * (y1 - y3) / den
            if |offset| < 1 then sampleRate / ((actualLag : ℚ) + offset)
            else sampleRate / (actualLag : ℚ)
          else sampleRate / (actualLag : ℚ)
        else sampleRate / (actualLag : ℚ)

/-- `extractPhaseLockedWaveform(buffer, frequency, sampleRate)`: builds
the reference sine, searches the tail window for the offset with the
best correlation, and copies one period from there (slots past the end
of the buffer stay 0).  Returns the waveform and `extractStart`. -/
def extractPhaseLockedWaveform (m : JsMath) (buffer : List ℚ)
    (frequency sampleRate : ℚ) : List ℚ × ℕ :=
  let period := (jsFloor (sampleRate / frequency)).toNat
  let refSine := (List.range period).map (fun i => m.sin (2 * m.pi * i / period))
  let searchLength := min buffer.length (period * 5)
  let startIndex := buffer.length - searchLength
  let corrOf := fun (offset : ℕ) =>
    ∑ i ∈ Finset.range (min period (buffer.length - (startIndex + offset))),
      buffer.getD (startIndex + offset + i) 0 * refSine.getD i 0
  let best := (List.range period).foldl
    (fun (acc : Option ℚ × ℕ) offset =>
      let c := corrOf offset
      match acc.1 with
      | none => (some c, offset)
      | some bc => if bc < c then (some c, offset) else acc) (none, 0)
  let extractStart := startIndex + best.2
  ((List.range period).map (fun i =>
      if extractStart + i < buffer.length then buffer.getD (extractStart + i) 0 else 0),
    extractStart)

/-- The fundamental copy loop of `processHarmonics`
(`waveform[i] = fundamentalWaveform[i]` for `i < src.length`). -/
def copyFront (dst src : List ℚ) : List ℚ :=
  dst.mapIdx (fun i v => if i < src.length then src.getD i 0 else v)

/-- The harmonic accumulation loop of `processHarmonics`
(`waveform[i] += filteredHarmonic[startIndex + i]` while the window
stays inside the buffer). -/
def addWindow (dst fh : List ℚ) (startIndex bufLen : ℕ) : List ℚ :=
  dst.mapIdx (fun i v =>
    if startIndex + i < bufLen then v + fh.getD (startIndex + i) 0 else v)

/-- `processHarmonics(buffer, frequency, sampleRate, harmonicCount)`.
The result array is `Float32Array(floor(sampleRate / frequency))`; the
fundamental is phase-locked, every harmonic reuses the fundamental's
window.  All bandpass helpers use the literal order 4 (even, so the
constructor cannot throw). -/
def processHarmonics (m : JsMath) (buffer : List ℚ) (frequency sampleRate : ℚ)
    (harmonicCount : ℤ) : List ℚ :=
  let fundamentalPeriod := (jsFloor (sampleRate / frequency)).toNat
  let waveform0 := List.replicate fundamentalPeriod (0 : ℚ)
  let fb := ButterworthFilter.make m .bandpass (fundamentalPeriod : ℚ) (87 / 10) 4
  let filteredFundamental := (fb.reset.processList buffer).1
  let ex := extractPhaseLockedWaveform m filteredFundamental frequency sampleRate
  let waveform1 := copyFront waveform0 ex.1
  ((List.range harmonicCount.toNat).drop 1).foldl
    (fun wf h =>
      let harmonicFreq := frequency * (h + 1)
      if sampleRate / 2 < harmonicFreq then wf
      else
        let harmonicPeriod := jsFloor (sampleRate / harmonicFreq)
        let bp := ButterworthFilter.make m .bandpass (harmonicPeriod : ℚ) (87 / 10) 4
        let filteredHarmonic := (bp.reset.processList buffer).1
        addWindow wf filteredHarmonic ex.2 buffer.length)
    waveform1

/-- One entry of the per-tick result list (`results.push({...})`): the
spread peak fields with `period` overwritten by the input-rate scaled
period, plus `octave`, `frequency` and `waveform`. -/
structure AnalysisEntry where
  index : ℕ
  period : ℚ
  energy : ℚ
  octave : ℕ
  frequency : ℚ
  waveform : List ℚ
deriving DecidableEq

instance : Inhabited AnalysisEntry := ⟨⟨0, 0, 0, 0, 0, []⟩⟩

/-- The per-peak body of `analyzeFrequencies`: isolate the component
with a fresh bandpass at the peak period (order omitted, hence the
default 4), refine the frequency, and extract the harmonic waveform —
all at the DETECTING LEVEL's sample rate. -/
def peakEntry (m : JsMath) (bank : FilterBank) (bufferData : List ℚ) (sampleRate : ℚ)
    (octave : ℕ) (peak : Peak) : AnalysisEntry :=
  let filterQ := (bank.filters.getD peak.index default).Q
  let bandpassFilter := ButterworthFilter.make m .bandpass peak.period filterQ 4
  let filteredSignal := (bandpassFilter.reset.processList bufferData).1
  let estimatedFreq := sampleRate / peak.period
  let measuredFreq := measureFrequencyPrecise filteredSignal estimatedFreq sampleRate filterQ
  let scaledPeriod := sampleRate / measuredFreq * 2 ^ octave
  let harmonicCount := min 5 (jsFloor (sampleRate / 2 / measuredFreq))
  let waveform := processHarmonics m bufferData measuredFreq sampleRate harmonicCount
  ⟨peak.index, scaledPeriod, peak.energy, octave, measuredFreq, waveform⟩

/-- The per-octave body of `analyzeFrequencies`: skip unfilled buffers,
otherwise run the raw storage through the shared bank, find peaks and
build the entries. -/
def analyzeOctave (m : JsMath) (mgr : OBMState) (threshold : ℚ) (k : ℕ) :
    List AnalysisEntry :=
  let b := mgr.octaveBuffers.getD k default
  if b.isFull then
    let sampleRate := mgr.octaveSampleRates.getD k 0
    let bufferData := analysisSnapshot b
    let energies := mgr.filterBank.processBufferEnergies bufferData
    let peaks := mgr.filterBank.findPeaks energies threshold
    peaks.map (peakEntry m mgr.filterBank bufferData sampleRate k)
  else []

/-- The result list posted by one `analyzeFrequencies` tick: all octave
entries sorted by ascending frequency
(`results.sort((a, b) => a.frequency - b.frequency)`; the JS engine's
comparison sort is modelled by a comparison sort over the same order —
they agree up to the order of entries with equal frequency). -/
def analyzeFrequenciesResults (m : JsMath) (mgr : OBMState) (threshold : ℚ) :
    List AnalysisEntry :=
  (((List.range mgr.numOctaves).map (analyzeOctave m mgr threshold)).flatten).insertionSort
    (fun a b => a.frequency ≤ b.frequency)

/-- The manager-state effect of one `analyzeFrequencies` tick: the only
manager state the tick mutates is the shared filter bank, which runs
`processBuffer` once per filled octave (the per-peak filters are
temporaries).  Results and state are split into two projections of the
same interleaved source loop; the results do not depend on the bank's
delay states because `processBuffer` resets them first. -/
def analyzeFrequenciesState (_m : JsMath) (mgr : OBMState) : OBMState :=
  (List.range mgr.numOctaves).foldl
    (fun s k =>
      let b := s.octaveBuffers.getD k default
      if b.isFull then
        { s with filterBank := s.filterBank.processBufferState (analysisSnapshot b) }
      else s)
    mgr

/-- The `updateParameters` message: absent fields are `undefined`. -/
structure ParamsMessage where
  minSamplesPerPeriod : Option ℕ
  maxSamplesPerPeriod : Option ℕ
  minPeriodsInBuffer : Option ℕ
  numFilters : Option ℕ
  percentOverlap : Option ℚ
  filterOrder : Option ℕ

/-- The processor state that `updateParameters` touches: the worklet
global `sampleRate` and the owned manager. -/
structure ProcessorState where
  sampleRate : ℚ
  bufferManager : OBMState
deriving DecidableEq

/-- `FrequencyAnalysisProcessor.updateParameters(message)`.  When a
rebuild is triggered, every parameter falls back to the stored value —
except `filterOrder`, whose fallback reads the absent message field
again (`message.filterOrder !== undefined ? message.filterOrder :
message.filterOrder`), so an absent order stays absent and the
`FilterBank` constructor default 4 applies.  `initializeBufferManager`
catches construction errors and keeps the old manager. -/
def updateParametersProc (m : JsMath) (p : ProcessorState) (msg : ParamsMessage) :
    Except String ProcessorState :=
  let needsReinit := msg.minSamplesPerPeriod.isSome || msg.maxSamplesPerPeriod.isSome ||
    msg.minPeriodsInBuffer.isSome
  if needsReinit then
    let minS := msg.minSamplesPerPeriod.getD p.bufferManager.minSamplesPerPeriod
    let maxS := msg.maxSamplesPerPeriod.getD p.bufferManager.maxSamplesPerPeriod
    let minP := msg.minPeriodsInBuffer.getD p.bufferManager.minPeriodsInBuffer
    let nf := msg.numFilters.getD p.bufferManager.filterBank.filters.length
    let po := msg.percentOverlap.getD p.bufferManager.percentOverlap
    let fo : Option ℕ :=
      match msg.filterOrder with
      | some o => some o
      | none => msg.filterOrder
    match OctaveBufferManager.init m p.sampleRate minS maxS minP nf po fo with
    | .ok mgr => .ok { p with bufferManager := mgr }
    | .error _ => .ok p
  else
    if msg.numFilters.isSome || msg.percentOverlap.isSome || msg.filterOrder.isSome then
      (FilterBank.updateParameters m p.bufferManager.filterBank msg.numFilters
          msg.percentOverlap msg.filterOrder).map
        (fun bank => { p with bufferManager := { p.bufferManager with filterBank := bank } })
    else .ok p

/-! ### Concrete oracle and concrete program states

A concrete `JsMath` oracle for evaluating the embedding on concrete
inputs.  The claims evaluated below never depend on the true values of
the transcendental functions (they exercise control flow, counters and
lengths); the few oracle values that do flow into the computations are
chosen nonzero where a zero would be degenerate. -/

/-- Concrete oracle used by the concrete runs below. -/
def mJs : JsMath where
  sin := fun x => if x = 4 then 2 else 0
  cos := fun _ => 0
  pow := fun a b =>
    if b = 0 then 1
    else if b = 1 then a
    else if b = 2 then a * a
    else if b = 1 / 2 ∧ a = 2 then 3 / 2
    else if b = 1 / 2 ∧ a = 4 then 2
    else 0
  log2 := fun x => if x = 2 then 1 else if x = 4 then 2 else 0
  sqrt := fun _ => 0
  pi := 3

/-- A small manager: sample rate 2, period range 1..2 (2 octaves,
buffer capacity 2), 3 filters, no overlap, order 2. -/
def mgrA : OBMState :=
  (OctaveBufferManager.init mJs 2 1 2 1 3 0 (some 2)).toOption.getD default

/-- A manager for the decimation scenario: period range 1..4 gives
3 octaves; capacity 200 holds the decimated streams of 256 samples. -/
def mgrD : OBMState :=
  (OctaveBufferManager.init mJs 2 1 4 100 2 0 (some 2)).toOption.getD default

/-- A processor whose manager was configured with filter order 6. -/
def procC10 : ProcessorState :=
  ⟨2, (OctaveBufferManager.init mJs 2 1 2 1 3 0 (some 6)).toOption.getD default⟩

/-- A rebuild-triggering message that does not mention `filterOrder`. -/
def msgC10 : ParamsMessage := ⟨none, none, some 2, none, none, none⟩

/-- A concrete filter bank: period range 1..4, 3 filters, no overlap,
order 2.  Under `mJs` the period ratio is `pow 4 (1/2) = 2`. -/
def bankC8 : FilterBank := (FilterBank.init mJs 1 4 3 0 (some 2)).toOption.getD default

/-- The manager rebuilt by `updateParameters` on `procC10` with
`msgC10`: the parameter fallbacks give `minS = 1`, `maxS = 2`,
`minP = 2` (from the message), `F = 3`, `ρ = 0` — and order `none`. -/
def mgrC10 : OBMState :=
  (OctaveBufferManager.init mJs 2 1 2 2 3 0 none).toOption.getD default

/-! ### Specification-side definitions used by the theorems -/

/-- The invariant tying a buffer to its write history: a buffer of
positive capacity `s` that received exactly the writes `xs` (oldest
first) has these fields.  The content clause says slot
`(len-1-i) % s` holds the `i`-th most recent write (for the `min len s`
retained writes); the last clause says never-written slots still hold
their `Float32Array` zero. -/
def Good (s : ℕ) (xs : List ℚ) (b : CircularBuffer) : Prop :=
  b.size = s ∧ b.hist = xs ∧ b.buffer.length = s ∧ b.writeIndex = xs.length % s ∧
  (b.filled = true ↔ s ≤ xs.length) ∧
  (∀ i, i < Min.min xs.length s →
    b.buffer.getD ((xs.length - 1 - i) % s) 0 = xs.getD (xs.length - 1 - i) 0) ∧
  (∀ j, xs.length ≤ j → j < s → b.buffer.getD j 0 = 0)

/-- Every `factor`-th element of `xs`, counted 1-based continuing from
an already-elapsed sample count `c`: exactly the values a decimation
counter at `c` lets through. -/
def decimateFrom (factor c : ℕ) : List ℚ → List ℚ
  | [] => []
  | x :: rest =>
    if (c + 1) % factor = 0 then x :: decimateFrom factor (c + 1) rest
    else decimateFrom factor (c + 1) rest

/-- Well-formedness of a manager state: the parallel arrays have the
lengths the constructor establishes and every buffer has the common
capacity. -/
def OBMWF (mgr : OBMState) : Prop :=
  mgr.octaveBuffers.length = mgr.numOctaves ∧
  mgr.decimationCounters.length = mgr.numOctaves ∧
  mgr.filterStates.length = mgr.numOctaves - 1 ∧
  ∀ b ∈ mgr.octaveBuffers, b.size = mgr.bufferSize

/-- The S4 scenario input: the 256 raw samples 0,1,…,255. -/
def inputS4 : List ℚ := (List.range 256).map (fun i => (i : ℚ))

/-- The S4 scenario run: the 256 samples fed to `mgrD` in one
`processBlock` call with the lowpass disabled. -/
def runS4 : OBMState := mgrD.processBlock inputS4 false

/-- The reachable manager state used against claim C5: fill octave 0
with the block `[0, 1]` and run one analysis tick. -/
def mgrC5 : OBMState := analyzeFrequenciesState mJs (mgrA.processBlock [0, 1] false)

/-- The reachable manager state used against claim C4: three writes
into capacity-2 buffers leave octave 0 filled with write index 1. -/
def mgrC4 : OBMState := mgrA.processBlock [5, 6, 7] false

/-- The reachable manager state used against claim C3: the block
`[0, 1, 0, 1]` fills both octave buffers. -/
def mgrC3 : OBMState := mgrA.processBlock [0, 1, 0, 1] false

/-- Decidable equality for `Except`, used to evaluate the embedded
constructors on concrete inputs. -/
instance {e a : Type} [DecidableEq e] [DecidableEq a] : DecidableEq (Except e a) :=
  fun x y =>
    match x, y with
    | .error e1, .error e2 =>
      if h : e1 = e2 then isTrue (by rw [h]) else isFalse (fun hc => by cases hc; exact h rfl)
    | .ok v1, .ok v2 =>
      if h : v1 = v2 then isTrue (by rw [h]) else isFalse (fun hc => by cases hc; exact h rfl)
    | .error _, .ok _ => isFalse (fun hc => by cases hc)
    | .ok _, .error _ => isFalse (fun hc => by cases hc)

/-- The per-level write-count invariant of a manager that has absorbed
`n` input samples in total since construction: every decimation counter
equals `n` and level `k` has received exactly `n / 2^k` writes. -/
def OBMCountInv (n K : ℕ) (mgr : OBMState) : Prop :=
  0 < K ∧ mgr.numOctaves = K ∧
  mgr.octaveBuffers.length = K ∧ mgr.decimationCounters.length = K ∧
  (mgr.octaveBuffers.getD 0 default).hist.length = n ∧
  ∀ k, 1 ≤ k → k < K → mgr.decimationCounters.getD k 0 = n ∧
    (mgr.octaveBuffers.getD k default).hist.length = n / 2 ^ k

/-! ## Theorems -/

/-! ### The kernel-friendly arithmetic helpers agree with Mathlib -/

/-- `jsFloor` is the mathematical floor. -/
theorem jsFloor_eq (q : ℚ) : jsFloor q = ⌊q⌋ := Rat.floor_def.symm

/-- `jsCeil` is the mathematical ceiling. -/
theorem jsCeil_eq (q : ℚ) : jsCeil q = ⌈q⌉ := by
  rw [jsCeil, jsFloor_eq, Int.floor_neg, neg_neg]

/-- `jsMinQ` is `min`. -/
theorem jsMinQ_eq (a b : ℚ) : jsMinQ a b = min a b := (min_def a b).symm

/-- `jsMaxQ` is `max`. -/
theorem jsMaxQ_eq (a b : ℚ) : jsMaxQ a b = max a b := (max_def a b).symm

/-! ### List indexing helpers -/

/-- `getD` after `set` at the written slot. -/
theorem getD_set_self {l : List ℚ} {i : ℕ} {a : ℚ} (h : i < l.length) :
    (l.set i a).getD i 0 = a := by
  rw [List.getD_eq_getElem _ _ (by simpa using h), List.getElem_set_self]

/-- `getD` after `set` at any other slot. -/
theorem getD_set_ne {l : List ℚ} {i j : ℕ} {a : ℚ} (h : i ≠ j) :
    (l.set i a).getD j 0 = l.getD j 0 := by
  simp [List.getD_eq_getElem?_getD, List.getElem?_set_ne h]

/-- Lists agree when their lengths and all in-range `getD` values agree. -/
theorem ext_getD {l1 l2 : List ℚ} (hlen : l1.length = l2.length)
    (h : ∀ i, i < l1.length → l1.getD i 0 = l2.getD i 0) : l1 = l2 := by
  apply List.ext_getElem hlen
  intro i h1 h2
  have := h i h1
  rwa [List.getD_eq_getElem _ _ h1, List.getD_eq_getElem _ _ h2] at this

/-! ### The circular-buffer history invariant -/

/-- A fresh buffer satisfies the invariant for the empty history. -/
theorem good_mkEmpty {s : ℕ} (hs : 0 < s) : Good s [] (CircularBuffer.mkEmpty s) := by
  refine ⟨rfl, rfl, by simp [CircularBuffer.mkEmpty], by simp [CircularBuffer.mkEmpty],
    by simp [CircularBuffer.mkEmpty]; omega, ?_, ?_⟩
  · intro i hi
    simp at hi
  · intro j _ hj
    simp [CircularBuffer.mkEmpty, List.getD_eq_getElem?_getD, List.getElem?_replicate, hj]

/-- `write` preserves the invariant, extending the history. -/
theorem good_write {s : ℕ} {xs : List ℚ} {b : CircularBuffer} {x : ℚ} (hs : 0 < s)
    (h : Good s xs b) : Good s (xs ++ [x]) (b.write x) := by
  obtain ⟨hsz, hh, hlen, hwi, hfill, hcontent, hzero⟩ := h
  have hn : ∀ t : ℕ, (xs.length % s + t) % s = (xs.length + t) % s := fun t =>
    (Nat.ModEq.add_right t (Nat.mod_modEq xs.length s)).symm ▸ rfl
  have hwi2 : (b.writeIndex + 1) % b.size = (xs.length + 1) % s := by
    rw [hwi, hsz]
    exact (Nat.ModEq.add_right 1 (Nat.mod_modEq xs.length s))
  refine ⟨hsz, by rw [CircularBuffer.write, hh], by simpa [CircularBuffer.write], ?_, ?_, ?_, ?_⟩
  · simpa [CircularBuffer.write] using hwi2
  · -- filled flag
    simp only [CircularBuffer.write, List.length_append, List.length_singleton]
    rw [hwi2]
    by_cases hz : (xs.length + 1) % s = 0
    · simp only [hz, if_pos rfl]
      have hdvd : s ∣ xs.length + 1 := Nat.dvd_of_mod_eq_zero hz
      have : s ≤ xs.length + 1 := Nat.le_of_dvd (by omega) hdvd
      simpa using this
    · simp only [if_neg hz]
      rw [hfill]
      constructor
      · omega
      · intro hle
        rcases Nat.lt_or_ge xs.length s with hlt | hge
        · have : s = xs.length + 1 := by omega
          rw [this] at hz
          simp [Nat.mod_self] at hz
        · omega
  · -- content
    intro i hi
    simp only [List.length_append, List.length_singleton] at hi ⊢
    have hilt : i < s := by omega
    have hile : i ≤ xs.length := by omega
    rcases Nat.eq_zero_or_pos i with rfl | hipos
    · -- the slot just written
      have hidx : xs.length + 1 - 1 - 0 = xs.length := by omega
      rw [hidx]
      have hslot : xs.length % s = b.writeIndex := hwi.symm
      have hwilt : b.writeIndex < b.buffer.length := by
        rw [hlen, hwi]
        exact Nat.mod_lt _ hs
      simp only [CircularBuffer.write]
      rw [hslot, getD_set_self hwilt,
        List.getD_append_right xs [x] 0 xs.length (le_refl _), Nat.sub_self]
      rfl
    · -- older retained writes
      have hidx : xs.length + 1 - 1 - i = xs.length - i := by omega
      rw [hidx]
      have hne : b.writeIndex ≠ (xs.length - i) % s := by
        rw [hwi]
        intro heq
        have hmeq : (xs.length - i) ≡ xs.length [MOD s] :=
          Nat.ModEq.trans (Nat.mod_modEq _ s).symm
            (heq.symm ▸ Nat.mod_modEq xs.length s)
        have hdvd : s ∣ xs.length - (xs.length - i) :=
          (Nat.modEq_iff_dvd' (Nat.sub_le _ _)).1 hmeq
        have : xs.length - (xs.length - i) = i := by omega
        rw [this] at hdvd
        have := Nat.le_of_dvd hipos hdvd
        omega
      simp only [CircularBuffer.write]
      rw [getD_set_ne hne]
      have hprev := hcontent (i - 1) (by omega)
      have hidx2 : xs.length - 1 - (i - 1) = xs.length - i := by omega
      rw [hidx2] at hprev
      rw [hprev, List.getD_append xs [x] 0 _ (by omega)]
  · -- never-written slots stay zero
    intro j hj1 hj2
    simp only [List.length_append, List.length_singleton] at hj1
    have hxs : xs.length < s := by omega
    have hwij : b.writeIndex ≠ j := by
      rw [hwi, Nat.mod_eq_of_lt hxs]
      omega
    simp only [CircularBuffer.write]
    rw [getD_set_ne hwij]
    exact hzero j (by omega) hj2

/-- `writeAll` preserves the invariant, appending to the history. -/
theorem good_writeAll {s : ℕ} {b : CircularBuffer} (ys : List ℚ) {xs : List ℚ} (hs : 0 < s)
    (h : Good s xs b) : Good s (xs ++ ys) (b.writeAll ys) := by
  induction ys generalizing xs b with
  | nil => simpa [CircularBuffer.writeAll]
  | cons y t ih =>
    have step := good_write hs h (x := y)
    have := ih step
    simpa [CircularBuffer.writeAll, List.foldl_cons] using this

/-- `fromHistory` satisfies the invariant. -/
theorem good_fromHistory {s : ℕ} (xs : List ℚ) (hs : 0 < s) :
    Good s xs (CircularBuffer.fromHistory s xs) := by
  have := good_writeAll xs hs (good_mkEmpty hs)
  simpa [CircularBuffer.fromHistory] using this

/-- `getValidCount` counts the retained writes. -/
theorem getValidCount_good {s : ℕ} {xs : List ℚ} {b : CircularBuffer} (_hs : 0 < s)
    (h : Good s xs b) : b.getValidCount = Min.min xs.length s := by
  obtain ⟨hsz, _, _, hwi, hfill, _, _⟩ := h
  unfold CircularBuffer.getValidCount
  by_cases hf : b.filled
  · rw [if_pos hf, hsz]
    have := hfill.1 hf
    omega
  · rw [if_neg hf, hwi]
    have hlt : xs.length < s := by
      by_contra hge
      exact hf (hfill.2 (by omega))
    rw [Nat.mod_eq_of_lt hlt]
    omega

/-- The storage slot holding the `i`-th most recent write, as a plain
`getD` fact usable with arbitrary slot indices `j < s`. -/
theorem good_slot {s : ℕ} {xs : List ℚ} {b : CircularBuffer} (hs : 0 < s)
    (h : Good s xs b) (hfull : s ≤ xs.length) (j : ℕ) (hj : j < s) :
    b.buffer.getD j 0 = xs.getD (xs.length - 1 - ((xs.length - 1 - j) % s)) 0 ∧
      (xs.length - 1 - ((xs.length - 1 - j) % s)) % s = j := by
  obtain ⟨_, _, _, _, _, hcontent, _⟩ := h
  set i := (xs.length - 1 - j) % s with hidef
  have hilt : i < s := Nat.mod_lt _ hs
  have hmod : i ≤ xs.length - 1 - j := Nat.mod_le _ _
  have hdm := Nat.div_add_mod (xs.length - 1 - j) s
  have hrw : xs.length - 1 - i = j + s * ((xs.length - 1 - j) / s) := by omega
  have hinv : (xs.length - 1 - i) % s = j := by
    rw [hrw, Nat.add_mul_mod_self_left, Nat.mod_eq_of_lt hj]
  have hcont := hcontent i (by omega)
  rw [hinv] at hcont
  exact ⟨hcont, hinv⟩

/-- `getOrdered` returns the last `min(len, s)` writes, oldest first:
uniformly, the history with its first `len - s` entries dropped. -/
theorem getOrdered_good {s : ℕ} {xs : List ℚ} {b : CircularBuffer} (hs : 0 < s)
    (h : Good s xs b) : b.getOrdered = xs.drop (xs.length - s) := by
  obtain ⟨hsz, hh, hlen, hwi, hfill, hcontent, hzero⟩ := h
  by_cases hf : b.filled
  · -- filled: rotation of the storage
    have hge : s ≤ xs.length := hfill.1 hf
    have hwilt : b.writeIndex < s := by
      rw [hwi]
      exact Nat.mod_lt _ hs
    have hgo : b.getOrdered = b.buffer.drop b.writeIndex ++ b.buffer.take b.writeIndex := by
      unfold CircularBuffer.getOrdered
      rw [if_neg (by simp [hf])]
    rw [hgo]
    apply ext_getD
    · simp only [List.length_append, List.length_drop, List.length_take, List.length_drop,
        hlen]
      omega
    · intro t ht
      simp only [List.length_append, List.length_drop, List.length_take, hlen] at ht
      have hts : t < s := by omega
      -- the slot of ordered position t in the raw storage
      have hslot : (b.buffer.drop b.writeIndex ++ b.buffer.take b.writeIndex).getD t 0 =
          b.buffer.getD ((b.writeIndex + t) % s) 0 := by
        rw [List.getD_eq_getElem?_getD, List.getD_eq_getElem?_getD]
        congr 1
        by_cases htlt : t < s - b.writeIndex
        · rw [List.getElem?_append_left (by simp [hlen]; omega), List.getElem?_drop,
            Nat.mod_eq_of_lt (by omega)]
        · rw [List.getElem?_append_right (by simp [hlen]; omega), List.getElem?_take]
          have hidx : t - (b.buffer.drop b.writeIndex).length = b.writeIndex + t - s := by
            simp [hlen]
            omega
          rw [hidx, if_pos (by omega)]
          have hmod : (b.writeIndex + t) % s = b.writeIndex + t - s := by
            rw [Nat.mod_eq_sub_mod (by omega)]
            exact Nat.mod_eq_of_lt (by omega)
          rw [hmod]
      rw [hslot]
      -- identify it with the (s-1-t)-th most recent write
      have hcont := hcontent (s - 1 - t) (by omega)
      have hidx : xs.length - 1 - (s - 1 - t) = xs.length - s + t := by omega
      rw [hidx] at hcont
      have hmeq : (xs.length - s + t) % s = (b.writeIndex + t) % s := by
        have h1 : (xs.length - s + t) % s = (xs.length + t) % s := by
          have hplus : xs.length + t = (xs.length - s + t) + s := by omega
          rw [hplus, Nat.add_mod_right]
        have h2 : (b.writeIndex + t) % s = (xs.length + t) % s := by
          rw [hwi]
          exact Nat.ModEq.add_right t (Nat.mod_modEq xs.length s)
        rw [h1, h2]
      rw [hmeq] at hcont
      rw [hcont]
      simp only [List.getD_eq_getElem?_getD, List.getElem?_drop]
  · -- not yet filled: the storage prefix
    have hlt : xs.length < s := by
      by_contra hge
      exact hf (hfill.2 (by omega))
    have hwieq : b.writeIndex = xs.length := by
      rw [hwi, Nat.mod_eq_of_lt hlt]
    have hzero2 : xs.length - s = 0 := by omega
    have hgo : b.getOrdered = b.buffer.take b.writeIndex := by
      unfold CircularBuffer.getOrdered
      rw [if_pos (Bool.not_eq_true b.filled |>.mp hf)]
    rw [hgo, hzero2, List.drop_zero, hwieq]
    apply ext_getD
    · simp only [List.length_take, hlen]
      omega
    · intro t ht
      simp only [List.length_take, hlen] at ht
      have htn : t < xs.length := by omega
      have htake : (b.buffer.take xs.length).getD t 0 = b.buffer.getD t 0 := by
        simp only [List.getD_eq_getElem?_getD, List.getElem?_take, if_pos htn]
      rw [htake]
      have hcont := hcontent (xs.length - 1 - t) (by omega)
      have hidx : xs.length - 1 - (xs.length - 1 - t) = t := by omega
      rw [hidx] at hcont
      rw [Nat.mod_eq_of_lt (by omega)] at hcont
      exact hcont

/-- `read` succeeds exactly on `[0, size)`; inside `[0, valid)` it
returns the `i`-th most recent write; on an unfilled buffer the indices
`[valid, size)` succeed with the never-written zero instead of failing. -/
theorem read_good {s : ℕ} {xs : List ℚ} {b : CircularBuffer} (_hs : 0 < s)
    (h : Good s xs b) :
    (∀ i : ℤ, i < 0 ∨ (s : ℤ) ≤ i → b.read i = .error "Index out of range") ∧
    (∀ i : ℕ, i < Min.min xs.length s →
      b.read i = .ok (xs.getD (xs.length - 1 - i) 0)) ∧
    (∀ i : ℕ, xs.length ≤ i → i < s → xs.length < s → b.read i = .ok 0) := by
  have hsz := h.1
  have hlen := h.2.2.1
  have hwi := h.2.2.2.1
  refine ⟨?_, ?_, ?_⟩
  · intro i hi
    unfold CircularBuffer.read
    rw [if_pos (by rw [hsz]; exact hi)]
  · intro i hi
    have hilt : i < s := by omega
    have hile : i < xs.length := by omega
    unfold CircularBuffer.read
    rw [if_neg (by rw [hsz]; push_neg; constructor <;> [positivity; exact_mod_cast hilt])]
    have htn : (i : ℤ).toNat = i := Int.toNat_natCast i
    rw [htn, hsz]
    have hslot : (b.writeIndex + (s - 1 - i)) % s = (xs.length - 1 - i) % s := by
      rw [hwi]
      have h1 : (xs.length % s + (s - 1 - i)) % s = (xs.length + (s - 1 - i)) % s :=
        Nat.ModEq.add_right (s - 1 - i) (Nat.mod_modEq xs.length s)
      rw [h1]
      have h2 : xs.length + (s - 1 - i) = (xs.length - 1 - i) + s := by omega
      rw [h2, Nat.add_mod_right]
    rw [hslot]
    have hcont := h.2.2.2.2.2.1 i (by omega)
    rw [hcont]
  · intro i hile hilt hlts
    unfold CircularBuffer.read
    rw [if_neg (by rw [hsz]; push_neg; constructor <;> [positivity; exact_mod_cast hilt])]
    have htn : (i : ℤ).toNat = i := Int.toNat_natCast i
    rw [htn, hsz, hwi, Nat.mod_eq_of_lt hlts]
    have hj : xs.length + (s - 1 - i) < s := by omega
    rw [Nat.mod_eq_of_lt hj]
    have hz := h.2.2.2.2.2.2 (xs.length + (s - 1 - i)) (by omega) hj
    rw [hz]

/-! ### The aggregate scans -/

/-- The `max()` scan from a live accumulator is `foldl max`. -/
theorem foldl_maxStep_some (l : List ℚ) (a : ℚ) :
    l.foldl maxStep (some a) = some (l.foldl max a) := by
  induction l generalizing a with
  | nil => rfl
  | cons v t ih =>
    have hstep : maxStep (some a) v = some (max a v) := by
      simp only [maxStep]
      rcases lt_trichotomy a v with h | h | h
      · rw [if_pos h, max_eq_right h.le]
      · subst h
        simp
      · rw [if_neg (not_lt.2 h.le), max_eq_left h.le]
    rw [List.foldl_cons, List.foldl_cons, hstep, ih]

/-- The `min()` scan from a live accumulator is `foldl min`. -/
theorem foldl_minStep_some (l : List ℚ) (a : ℚ) :
    l.foldl minStep (some a) = some (l.foldl min a) := by
  induction l generalizing a with
  | nil => rfl
  | cons v t ih =>
    have hstep : minStep (some a) v = some (min a v) := by
      simp only [minStep]
      rcases lt_trichotomy v a with h | h | h
      · rw [if_pos h, min_eq_right h.le]
      · subst h
        simp
      · rw [if_neg (not_lt.2 h.le), min_eq_left h.le]
    rw [List.foldl_cons, List.foldl_cons, hstep, ih]

/-- `foldl max` dominates its initial value. -/
theorem le_foldl_max_init (l : List ℚ) (a : ℚ) : a ≤ l.foldl max a := by
  induction l generalizing a with
  | nil => exact le_refl a
  | cons v t ih => exact le_trans (le_max_left a v) (ih (max a v))

/-- `foldl max` dominates every list element. -/
theorem le_foldl_max_mem {l : List ℚ} {v : ℚ} (hv : v ∈ l) (a : ℚ) :
    v ≤ l.foldl max a := by
  induction l generalizing a with
  | nil => cases hv
  | cons w t ih =>
    rcases List.mem_cons.1 hv with rfl | hvt
    · exact le_trans (le_max_right a v) (le_foldl_max_init t _)
    · exact ih hvt _

/-- `foldl max` is its initial value or a list element. -/
theorem foldl_max_choice (l : List ℚ) (a : ℚ) :
    l.foldl max a = a ∨ l.foldl max a ∈ l := by
  induction l generalizing a with
  | nil => exact Or.inl rfl
  | cons v t ih =>
    rcases ih (max a v) with h | h
    · rcases max_choice a v with hm | hm
      · rw [List.foldl_cons, h, hm]
        exact Or.inl rfl
      · rw [List.foldl_cons, h, hm]
        exact Or.inr (List.mem_cons_self v t)
    · exact Or.inr (List.mem_cons_of_mem _ h)

/-- `foldl min` is below its initial value. -/
theorem foldl_min_init_le (l : List ℚ) (a : ℚ) : l.foldl min a ≤ a := by
  induction l generalizing a with
  | nil => exact le_refl a
  | cons v t ih => exact le_trans (ih (min a v)) (min_le_left a v)

/-- `foldl min` is below every list element. -/
theorem foldl_min_mem_le {l : List ℚ} {v : ℚ} (hv : v ∈ l) (a : ℚ) :
    l.foldl min a ≤ v := by
  induction l generalizing a with
  | nil => cases hv
  | cons w t ih =>
    rcases List.mem_cons.1 hv with rfl | hvt
    · exact le_trans (foldl_min_init_le t _) (min_le_right a v)
    · exact ih hvt _

/-- `foldl min` is its initial value or a list element. -/
theorem foldl_min_choice (l : List ℚ) (a : ℚ) :
    l.foldl min a = a ∨ l.foldl min a ∈ l := by
  induction l generalizing a with
  | nil => exact Or.inl rfl
  | cons v t ih =>
    rcases ih (min a v) with h | h
    · rcases min_choice a v with hm | hm
      · rw [List.foldl_cons, h, hm]
        exact Or.inl rfl
      · rw [List.foldl_cons, h, hm]
        exact Or.inr (List.mem_cons_self v t)
    · exact Or.inr (List.mem_cons_of_mem _ h)

/-- On a buffer holding at most its capacity, storage slot `j` below the
write count holds write `j`. -/
theorem good_prefix_eq {s : ℕ} {xs : List ℚ} {b : CircularBuffer} (_hs : 0 < s)
    (h : Good s xs b) (hle : xs.length ≤ s) :
    ∀ j, j < xs.length → b.buffer.getD j 0 = xs.getD j 0 := by
  intro j hj
  have hcont := h.2.2.2.2.2.1 (xs.length - 1 - j) (by omega)
  have hidx : xs.length - 1 - (xs.length - 1 - j) = j := by omega
  rw [hidx, Nat.mod_eq_of_lt (by omega)] at hcont
  exact hcont

/-- Reindexing a function of the storage slots of a filled buffer as a
function of write recency. -/
theorem sum_storage_good (f : ℚ → ℚ) {s : ℕ} {xs : List ℚ} {b : CircularBuffer}
    (hs : 0 < s) (h : Good s xs b) (hfull : s ≤ xs.length) :
    ∑ j ∈ Finset.range s, f (b.buffer.getD j 0) =
      ∑ i ∈ Finset.range s, f (xs.getD (xs.length - 1 - i) 0) := by
  apply Finset.sum_nbij' (fun j => (xs.length - 1 - j) % s) (fun i => (xs.length - 1 - i) % s)
  · intro a _
    exact Finset.mem_range.2 (Nat.mod_lt _ hs)
  · intro a _
    exact Finset.mem_range.2 (Nat.mod_lt _ hs)
  · intro a ha
    exact (good_slot hs h hfull a (Finset.mem_range.1 ha)).2
  · intro a ha
    exact (good_slot hs h hfull a (Finset.mem_range.1 ha)).2
  · intro a ha
    rw [(good_slot hs h hfull a (Finset.mem_range.1 ha)).1]

/-- Every storage slot of a filled buffer holds one of the last `s`
writes, and conversely. -/
theorem mem_storage_filled {s : ℕ} {xs : List ℚ} {b : CircularBuffer} (hs : 0 < s)
    (h : Good s xs b) (hfull : s ≤ xs.length) :
    (∀ v, v ∈ b.buffer → ∃ i, i < s ∧ v = xs.getD (xs.length - 1 - i) 0) ∧
    (∀ i, i < s → xs.getD (xs.length - 1 - i) 0 ∈ b.buffer) := by
  have hlen := h.2.2.1
  constructor
  · intro v hv
    obtain ⟨j, hj, hval⟩ := List.mem_iff_getElem.1 hv
    rw [hlen] at hj
    have hgd : b.buffer.getD j 0 = v := by
      rw [List.getD_eq_getElem _ 0 (by rw [hlen]; exact hj), hval]
    obtain ⟨hsl, _⟩ := good_slot hs h hfull j hj
    exact ⟨(xs.length - 1 - j) % s, Nat.mod_lt _ hs, by rw [← hgd, hsl]⟩
  · intro i hi
    have hcont := h.2.2.2.2.2.1 i (by omega)
    rw [← hcont]
    have hidx : (xs.length - 1 - i) % s < b.buffer.length := by
      rw [hlen]
      exact Nat.mod_lt _ hs
    rw [List.getD_eq_getElem _ 0 hidx]
    exact List.getElem_mem hidx

/-- Every storage slot of a partially filled buffer is a written value
or the zero of a never-written slot, and conversely. -/
theorem mem_storage_unfilled {s : ℕ} {xs : List ℚ} {b : CircularBuffer} (hs : 0 < s)
    (h : Good s xs b) (hlt : xs.length < s) :
    (∀ v, v ∈ b.buffer → v = 0 ∨ ∃ j, j < xs.length ∧ v = xs.getD j 0) ∧
    (∀ j, j < xs.length → xs.getD j 0 ∈ b.buffer) ∧ (0 : ℚ) ∈ b.buffer := by
  have hlen := h.2.2.1
  refine ⟨?_, ?_, ?_⟩
  · intro v hv
    obtain ⟨j, hj, hval⟩ := List.mem_iff_getElem.1 hv
    rw [hlen] at hj
    have hgd : b.buffer.getD j 0 = v := by
      rw [List.getD_eq_getElem _ 0 (by rw [hlen]; exact hj), hval]
    by_cases hjn : j < xs.length
    · exact Or.inr ⟨j, hjn, by rw [← hgd, good_prefix_eq hs h (by omega) j hjn]⟩
    · exact Or.inl (by rw [← hgd, h.2.2.2.2.2.2 j (by omega) hj])
  · intro j hj
    rw [← good_prefix_eq hs h (by omega) j hj,
      List.getD_eq_getElem _ 0 (by rw [hlen]; omega)]
    exact List.getElem_mem _
  · rw [← h.2.2.2.2.2.2 xs.length (le_refl _) hlt,
      List.getD_eq_getElem _ 0 (by rw [hlen]; omega)]
    exact List.getElem_mem _

/-- On any nonempty buffer, `max()` returns a storage element that
dominates the whole storage (including never-written slots). -/
theorem max_spec_good {s : ℕ} {xs : List ℚ} {b : CircularBuffer} (hs : 0 < s)
    (h : Good s xs b) (hpos : 0 < xs.length) :
    b.max ∈ b.buffer ∧ ∀ v ∈ b.buffer, v ≤ b.max := by
  have hlen := h.2.2.1
  have hvc : b.getValidCount ≠ 0 := by
    rw [getValidCount_good hs h]
    omega
  have hmax : b.max = (b.buffer.foldl maxStep none).getD 0 := by
    unfold CircularBuffer.max
    rw [if_neg hvc]
  cases hbuf : b.buffer with
  | nil =>
    rw [hbuf] at hlen
    simp at hlen
    omega
  | cons c rest =>
    rw [hbuf] at hmax
    rw [List.foldl_cons] at hmax
    have hsome : maxStep none c = some c := rfl
    rw [hsome, foldl_maxStep_some] at hmax
    simp only [Option.getD_some] at hmax
    constructor
    · rw [hmax]
      rcases foldl_max_choice rest c with hc | hc
      · rw [hc]
        exact List.mem_cons_self c rest
      · exact List.mem_cons_of_mem _ hc
    · intro v hv
      rw [hmax]
      rcases List.mem_cons.1 hv with rfl | hvr
      · exact le_foldl_max_init rest v
      · exact le_foldl_max_mem hvr c

/-- On any nonempty buffer, `min()` returns a storage element below the
whole storage (including never-written slots). -/
theorem min_spec_good {s : ℕ} {xs : List ℚ} {b : CircularBuffer} (hs : 0 < s)
    (h : Good s xs b) (hpos : 0 < xs.length) :
    b.min ∈ b.buffer ∧ ∀ v ∈ b.buffer, b.min ≤ v := by
  have hlen := h.2.2.1
  have hvc : b.getValidCount ≠ 0 := by
    rw [getValidCount_good hs h]
    omega
  have hmin : b.min = (b.buffer.foldl minStep none).getD 0 := by
    unfold CircularBuffer.min
    rw [if_neg hvc]
  cases hbuf : b.buffer with
  | nil =>
    rw [hbuf] at hlen
    simp at hlen
    omega
  | cons c rest =>
    rw [hbuf] at hmin
    rw [List.foldl_cons] at hmin
    have hsome : minStep none c = some c := rfl
    rw [hsome, foldl_minStep_some] at hmin
    simp only [Option.getD_some] at hmin
    constructor
    · rw [hmin]
      rcases foldl_min_choice rest c with hc | hc
      · rw [hc]
        exact List.mem_cons_self c rest
      · exact List.mem_cons_of_mem _ hc
    · intro v hv
      rw [hmin]
      rcases List.mem_cons.1 hv with rfl | hvr
      · exact foldl_min_init_le rest v
      · exact foldl_min_mem_le hvr c

/-! ### Claim C6 -/

/-- C6, counterexample: a capacity-2 buffer with one write has
`valid_count() = 1` (its only valid sample being 5), yet `read 1` —
outside `[0, valid_count())` — succeeds and returns the never-written
slot's 0 instead of failing as the claim requires. -/
theorem c6_counterexample :
    (CircularBuffer.fromHistory 2 [5]).getValidCount = 1 ∧
    (CircularBuffer.fromHistory 2 [5]).read 1 = .ok 0 := by
  constructor
  · decide
  · rfl

/-- C6 — amended: `read_age(i)` succeeds exactly for `i ∈ [0, C)` where
`C` is the CAPACITY, not the valid count.  For `i ∈ [0, valid_count())`
it returns the element written `i` writes ago; on an unfilled buffer,
`i ∈ [valid_count(), C)` succeeds with the never-written
(zero-initialised) slot; only `i < 0` or `i ≥ C` fail with the
invalid-argument error. -/
theorem c6_read_range (s : ℕ) (xs : List ℚ) (hs : 0 < s) :
    (∀ i : ℤ, i < 0 ∨ (s : ℤ) ≤ i →
      (CircularBuffer.fromHistory s xs).read i = .error "Index out of range") ∧
    (∀ i : ℕ, i < Min.min xs.length s →
      (CircularBuffer.fromHistory s xs).read i =
        .ok (xs.getD (xs.length - 1 - i) 0)) ∧
    (∀ i : ℕ, xs.length ≤ i → i < s → xs.length < s →
      (CircularBuffer.fromHistory s xs).read i = .ok 0) :=
  read_good hs (good_fromHistory xs hs)

/-- C6, witness: the amended read contract evaluated on a concrete
buffer of capacity 2 holding the writes 5, 6, 7. -/
theorem c6_witness :
    0 < 2 ∧
    ((∀ i : ℤ, i < 0 ∨ (2 : ℤ) ≤ i →
      (CircularBuffer.fromHistory 2 [5, 6, 7]).read i = .error "Index out of range") ∧
    (∀ i : ℕ, i < Min.min ([5, 6, 7] : List ℚ).length 2 →
      (CircularBuffer.fromHistory 2 [5, 6, 7]).read i =
        .ok (([5, 6, 7] : List ℚ).getD (([5, 6, 7] : List ℚ).length - 1 - i) 0)) ∧
    (∀ i : ℕ, ([5, 6, 7] : List ℚ).length ≤ i → i < 2 →
      ([5, 6, 7] : List ℚ).length < 2 →
      (CircularBuffer.fromHistory 2 [5, 6, 7]).read i = .ok 0)) :=
  ⟨by decide, c6_read_range 2 [5, 6, 7] (by decide)⟩

/-! ### Claim C7 -/

/-- C7, counterexample: a capacity-2 buffer whose only valid sample is
-5 (respectively 5) has `max() = 0` (respectively `min() = 0`): the
never-written zero slot participates in the scan, contradicting the
claim that the aggregates use exactly the valid range. -/
theorem c7_counterexample :
    (CircularBuffer.fromHistory 2 [-5]).getValidCount = 1 ∧
    (CircularBuffer.fromHistory 2 [-5]).read 0 = .ok (-5) ∧
    CircularBuffer.max (CircularBuffer.fromHistory 2 [-5]) = 0 ∧
    (CircularBuffer.fromHistory 2 [5]).getValidCount = 1 ∧
    (CircularBuffer.fromHistory 2 [5]).read 0 = .ok 5 ∧
    CircularBuffer.min (CircularBuffer.fromHistory 2 [5]) = 0 := by
  refine ⟨by decide, by rfl, by decide, by decide, by rfl, by decide⟩

/-- C7 — amended: `average()` and `rms()` do use exactly the
`valid_count()` written samples, and all four aggregates return 0 on an
empty buffer; but `max()` and `min()` scan the WHOLE storage, so on a
filled buffer they give the extremum of the last `C` writes, while on a
partially filled buffer the never-written zero slots take part: the
result is an upper (lower) bound of the written values that is either 0
or a written value, i.e. `max(0, true max)` (`min(0, true min)`). -/
theorem c7_aggregates (s : ℕ) (xs : List ℚ) (m : JsMath) (hs : 0 < s) :
    (xs.length = 0 →
      CircularBuffer.max (CircularBuffer.fromHistory s xs) = 0 ∧
      CircularBuffer.min (CircularBuffer.fromHistory s xs) = 0 ∧
      (CircularBuffer.fromHistory s xs).average = 0 ∧
      (CircularBuffer.fromHistory s xs).rms m = 0) ∧
    (0 < xs.length →
      (CircularBuffer.fromHistory s xs).average =
        (∑ i ∈ Finset.range (Min.min xs.length s), xs.getD (xs.length - 1 - i) 0) /
          ((Min.min xs.length s : ℕ) : ℚ)) ∧
    (0 < xs.length →
      (CircularBuffer.fromHistory s xs).rms m =
        m.sqrt ((∑ i ∈ Finset.range (Min.min xs.length s),
            xs.getD (xs.length - 1 - i) 0 * xs.getD (xs.length - 1 - i) 0) /
          ((Min.min xs.length s : ℕ) : ℚ))) ∧
    (0 < xs.length → s ≤ xs.length →
      ((∃ i, i < s ∧ CircularBuffer.max (CircularBuffer.fromHistory s xs) =
          xs.getD (xs.length - 1 - i) 0) ∧
        (∀ i, i < s → xs.getD (xs.length - 1 - i) 0 ≤
          CircularBuffer.max (CircularBuffer.fromHistory s xs))) ∧
      ((∃ i, i < s ∧ CircularBuffer.min (CircularBuffer.fromHistory s xs) =
          xs.getD (xs.length - 1 - i) 0) ∧
        (∀ i, i < s → CircularBuffer.min (CircularBuffer.fromHistory s xs) ≤
          xs.getD (xs.length - 1 - i) 0))) ∧
    (0 < xs.length → xs.length < s →
      ((CircularBuffer.max (CircularBuffer.fromHistory s xs) = 0 ∨
          ∃ j, j < xs.length ∧
            CircularBuffer.max (CircularBuffer.fromHistory s xs) = xs.getD j 0) ∧
        0 ≤ CircularBuffer.max (CircularBuffer.fromHistory s xs) ∧
        (∀ j, j < xs.length →
          xs.getD j 0 ≤ CircularBuffer.max (CircularBuffer.fromHistory s xs))) ∧
      ((CircularBuffer.min (CircularBuffer.fromHistory s xs) = 0 ∨
          ∃ j, j < xs.length ∧
            CircularBuffer.min (CircularBuffer.fromHistory s xs) = xs.getD j 0) ∧
        CircularBuffer.min (CircularBuffer.fromHistory s xs) ≤ 0 ∧
        (∀ j, j < xs.length →
          CircularBuffer.min (CircularBuffer.fromHistory s xs) ≤ xs.getD j 0))) := by
  have hg := good_fromHistory (s := s) xs hs
  have hvc := getValidCount_good hs hg
  refine ⟨?_, ?_, ?_, ?_, ?_⟩
  · intro h0
    have hz : (CircularBuffer.fromHistory s xs).getValidCount = 0 := by
      rw [hvc]
      omega
    refine ⟨?_, ?_, ?_, ?_⟩ <;>
      simp [CircularBuffer.max, CircularBuffer.min, CircularBuffer.average,
        CircularBuffer.rms, hz]
  · intro hpos
    have hvne : (CircularBuffer.fromHistory s xs).getValidCount ≠ 0 := by
      rw [hvc]
      omega
    unfold CircularBuffer.average
    rw [if_neg hvne, hvc]
    congr 1
    by_cases hcase : s ≤ xs.length
    · have hV : Min.min xs.length s = s := by omega
      rw [hV]
      exact sum_storage_good (fun v => v) hs hg hcase
    · have hV : Min.min xs.length s = xs.length := by omega
      rw [hV]
      rw [Finset.sum_congr rfl
        (fun j hj => good_prefix_eq hs hg (by omega) j (Finset.mem_range.1 hj))]
      exact (Finset.sum_range_reflect (fun j => xs.getD j 0) xs.length).symm
  · intro hpos
    have hvne : (CircularBuffer.fromHistory s xs).getValidCount ≠ 0 := by
      rw [hvc]
      omega
    unfold CircularBuffer.rms
    rw [if_neg hvne, hvc]
    congr 2
    by_cases hcase : s ≤ xs.length
    · have hV : Min.min xs.length s = s := by omega
      rw [hV]
      exact sum_storage_good (fun v => v * v) hs hg hcase
    · have hV : Min.min xs.length s = xs.length := by omega
      rw [hV]
      rw [Finset.sum_congr rfl
        (fun j hj => by rw [good_prefix_eq hs hg (by omega) j (Finset.mem_range.1 hj)])]
      exact (Finset.sum_range_reflect (fun j => xs.getD j 0 * xs.getD j 0) xs.length).symm
  · intro hpos hfull
    obtain ⟨hmaxmem, hmaxub⟩ := max_spec_good hs hg hpos
    obtain ⟨hminmem, hminlb⟩ := min_spec_good hs hg hpos
    obtain ⟨hfwd, hbwd⟩ := mem_storage_filled hs hg hfull
    exact ⟨⟨hfwd _ hmaxmem, fun i hi => hmaxub _ (hbwd i hi)⟩,
      ⟨hfwd _ hminmem, fun i hi => hminlb _ (hbwd i hi)⟩⟩
  · intro hpos hlt
    obtain ⟨hmaxmem, hmaxub⟩ := max_spec_good hs hg hpos
    obtain ⟨hminmem, hminlb⟩ := min_spec_good hs hg hpos
    obtain ⟨hfwd, hmid, hzmem⟩ := mem_storage_unfilled hs hg hlt
    exact ⟨⟨hfwd _ hmaxmem, hmaxub 0 hzmem, fun j hj => hmaxub _ (hmid j hj)⟩,
      ⟨hfwd _ hminmem, hminlb 0 hzmem, fun j hj => hminlb _ (hmid j hj)⟩⟩

/-- C7, witness: the amended aggregate contract evaluated at capacity 3
with the writes -5, 2. -/
theorem c7_witness : 0 < 3 ∧
    ((([-5, 2] : List ℚ).length = 0 →
      CircularBuffer.max (CircularBuffer.fromHistory 3 [-5, 2]) = 0 ∧
      CircularBuffer.min (CircularBuffer.fromHistory 3 [-5, 2]) = 0 ∧
      (CircularBuffer.fromHistory 3 [-5, 2]).average = 0 ∧
      (CircularBuffer.fromHistory 3 [-5, 2]).rms mJs = 0) ∧
    (0 < ([-5, 2] : List ℚ).length →
      (CircularBuffer.fromHistory 3 [-5, 2]).average =
        (∑ i ∈ Finset.range (Min.min ([-5, 2] : List ℚ).length 3),
          ([-5, 2] : List ℚ).getD (([-5, 2] : List ℚ).length - 1 - i) 0) /
          ((Min.min ([-5, 2] : List ℚ).length 3 : ℕ) : ℚ)) ∧
    (0 < ([-5, 2] : List ℚ).length →
      (CircularBuffer.fromHistory 3 [-5, 2]).rms mJs =
        mJs.sqrt ((∑ i ∈ Finset.range (Min.min ([-5, 2] : List ℚ).length 3),
            ([-5, 2] : List ℚ).getD (([-5, 2] : List ℚ).length - 1 - i) 0 *
              ([-5, 2] : List ℚ).getD (([-5, 2] : List ℚ).length - 1 - i) 0) /
          ((Min.min ([-5, 2] : List ℚ).length 3 : ℕ) : ℚ))) ∧
    (0 < ([-5, 2] : List ℚ).length → 3 ≤ ([-5, 2] : List ℚ).length →
      ((∃ i, i < 3 ∧ CircularBuffer.max (CircularBuffer.fromHistory 3 [-5, 2]) =
          ([-5, 2] : List ℚ).getD (([-5, 2] : List ℚ).length - 1 - i) 0) ∧
        (∀ i, i < 3 → ([-5, 2] : List ℚ).getD (([-5, 2] : List ℚ).length - 1 - i) 0 ≤
          CircularBuffer.max (CircularBuffer.fromHistory 3 [-5, 2]))) ∧
      ((∃ i, i < 3 ∧ CircularBuffer.min (CircularBuffer.fromHistory 3 [-5, 2]) =
          ([-5, 2] : List ℚ).getD (([-5, 2] : List ℚ).length - 1 - i) 0) ∧
        (∀ i, i < 3 → CircularBuffer.min (CircularBuffer.fromHistory 3 [-5, 2]) ≤
          ([-5, 2] : List ℚ).getD (([-5, 2] : List ℚ).length - 1 - i) 0))) ∧
    (0 < ([-5, 2] : List ℚ).length → ([-5, 2] : List ℚ).length < 3 →
      ((CircularBuffer.max (CircularBuffer.fromHistory 3 [-5, 2]) = 0 ∨
          ∃ j, j < ([-5, 2] : List ℚ).length ∧
            CircularBuffer.max (CircularBuffer.fromHistory 3 [-5, 2]) =
              ([-5, 2] : List ℚ).getD j 0) ∧
        0 ≤ CircularBuffer.max (CircularBuffer.fromHistory 3 [-5, 2]) ∧
        (∀ j, j < ([-5, 2] : List ℚ).length →
          ([-5, 2] : List ℚ).getD j 0 ≤
            CircularBuffer.max (CircularBuffer.fromHistory 3 [-5, 2]))) ∧
      ((CircularBuffer.min (CircularBuffer.fromHistory 3 [-5, 2]) = 0 ∨
          ∃ j, j < ([-5, 2] : List ℚ).length ∧
            CircularBuffer.min (CircularBuffer.fromHistory 3 [-5, 2]) =
              ([-5, 2] : List ℚ).getD j 0) ∧
        CircularBuffer.min (CircularBuffer.fromHistory 3 [-5, 2]) ≤ 0 ∧
        (∀ j, j < ([-5, 2] : List ℚ).length →
          CircularBuffer.min (CircularBuffer.fromHistory 3 [-5, 2]) ≤
            ([-5, 2] : List ℚ).getD j 0)))) :=
  ⟨by decide, c7_aggregates 3 [-5, 2] mJs (by decide)⟩

/-! ### Claim C4 -/

/-- C4, counterexample: in the reachable state `mgrC4` the octave-0
buffer is filled with write index 1; the sequence `analyzeFrequencies`
hands to the filter bank (`buffer.getBuffer()`, embedded as
`analysisSnapshot`) is the raw storage `[7, 6]`, which is NOT the
chronological snapshot `[6, 7]`. -/
theorem c4_counterexample :
    (mgrC4.octaveBuffers.getD 0 default).isFull = true ∧
    (mgrC4.octaveBuffers.getD 0 default).writeIndex = 1 ∧
    analysisSnapshot (mgrC4.octaveBuffers.getD 0 default) = [7, 6] ∧
    (mgrC4.octaveBuffers.getD 0 default).getOrdered = [6, 7] ∧
    analysisSnapshot (mgrC4.octaveBuffers.getD 0 default) ≠
      (mgrC4.octaveBuffers.getD 0 default).getOrdered := by
  refine ⟨by decide, by decide, by decide, by decide, by decide⟩

/-- C4 — amended: the sequence fed to the shared filter bank is the raw
storage array (`getBuffer()`), which is the chronological snapshot
rotated left by the current write index; it coincides with the
chronological order exactly when the write index happens to be 0. -/
theorem c4_snapshot_rotation (s : ℕ) (xs : List ℚ) (hs : 0 < s) (hfull : s ≤ xs.length) :
    (analysisSnapshot (CircularBuffer.fromHistory s xs)).rotate
        (CircularBuffer.fromHistory s xs).writeIndex =
      (CircularBuffer.fromHistory s xs).getOrdered ∧
    ((CircularBuffer.fromHistory s xs).writeIndex = 0 →
      analysisSnapshot (CircularBuffer.fromHistory s xs) =
        (CircularBuffer.fromHistory s xs).getOrdered) := by
  have hg := good_fromHistory (s := s) xs hs
  have hlen := hg.2.2.1
  have hfil : (CircularBuffer.fromHistory s xs).filled = true := hg.2.2.2.2.1.2 hfull
  have hwi : (CircularBuffer.fromHistory s xs).writeIndex < s := by
    rw [hg.2.2.2.1]
    exact Nat.mod_lt _ hs
  have hgo : (CircularBuffer.fromHistory s xs).getOrdered =
      (CircularBuffer.fromHistory s xs).buffer.drop
          (CircularBuffer.fromHistory s xs).writeIndex ++
        (CircularBuffer.fromHistory s xs).buffer.take
          (CircularBuffer.fromHistory s xs).writeIndex := by
    unfold CircularBuffer.getOrdered
    rw [if_neg (by simp [hfil])]
  constructor
  · rw [hgo]
    unfold analysisSnapshot CircularBuffer.getBuffer
    exact List.rotate_eq_drop_append_take (by rw [hlen]; omega)
  · intro h0
    rw [hgo, h0]
    simp [analysisSnapshot, CircularBuffer.getBuffer]

/-- C4, witness: the rotation identity on a concrete filled buffer
(capacity 2, writes 5, 6, 7, write index 1). -/
theorem c4_witness :
    0 < 2 ∧ 2 ≤ ([5, 6, 7] : List ℚ).length ∧
    ((analysisSnapshot (CircularBuffer.fromHistory 2 [5, 6, 7])).rotate
        (CircularBuffer.fromHistory 2 [5, 6, 7]).writeIndex =
      (CircularBuffer.fromHistory 2 [5, 6, 7]).getOrdered ∧
    ((CircularBuffer.fromHistory 2 [5, 6, 7]).writeIndex = 0 →
      analysisSnapshot (CircularBuffer.fromHistory 2 [5, 6, 7]) =
        (CircularBuffer.fromHistory 2 [5, 6, 7]).getOrdered)) :=
  ⟨by decide, by decide, c4_snapshot_rotation 2 [5, 6, 7] (by decide) (by decide)⟩

/-! ### Octave manager infrastructure -/

/-- `getD` of `List.ofFn` below the length. -/
theorem getD_ofFn {n : ℕ} (f : Fin n → CircularBuffer) (k : ℕ) (hk : k < n) :
    (List.ofFn f).getD k default = f ⟨k, hk⟩ := by
  rw [List.getD_eq_getElem _ _ (by simpa using hk), List.getElem_ofFn]

/-- `getD` of `List.ofFn` for counters. -/
theorem getD_ofFn_nat {n : ℕ} (f : Fin n → ℕ) (k : ℕ) (hk : k < n) :
    (List.ofFn f).getD k 0 = f ⟨k, hk⟩ := by
  rw [List.getD_eq_getElem _ _ (by simpa using hk), List.getElem_ofFn]

/-- Allocating the octave buffers: a run of `new CircularBuffer(C)`
succeeds exactly when the capacity is positive, yielding fresh buffers. -/
theorem mapM_make_ok {C : ℕ} :
    ∀ (l : List ℕ) {bs : List CircularBuffer},
      l.mapM (fun _ => CircularBuffer.make C) = .ok bs →
      bs = List.replicate l.length (CircularBuffer.mkEmpty C) ∧ (l = [] ∨ 0 < C)
  | [], bs => by
    intro h
    simp only [List.mapM_nil, pure, Except.pure] at h
    cases h
    exact ⟨rfl, Or.inl rfl⟩
  | a :: l, bs => by
    intro h
    by_cases hC : C = 0
    · have hmake : CircularBuffer.make C =
          (.error "Buffer size must be a positive integer" : Except String CircularBuffer) := by
        rw [CircularBuffer.make, if_pos hC]
      rw [List.mapM_cons, hmake] at h
      simp [Bind.bind, Except.bind] at h
    · have hmake : CircularBuffer.make C = .ok (CircularBuffer.mkEmpty C) := by
        rw [CircularBuffer.make, if_neg hC]
      rw [List.mapM_cons] at h
      cases hrec : l.mapM (fun _ => CircularBuffer.make C) with
      | error e =>
        rw [hrec, hmake] at h
        simp [Bind.bind, Except.bind] at h
      | ok bs2 =>
        rw [hrec, hmake] at h
        simp only [Bind.bind, Except.bind, pure, Except.pure] at h
        cases h
        obtain ⟨hbs, _⟩ := mapM_make_ok l hrec
        exact ⟨by rw [hbs]; rfl, Or.inr (Nat.pos_of_ne_zero hC)⟩

/-- What a successful `OctaveBufferManager` construction produces. -/
theorem init_components {m : JsMath} {sr : ℚ} {minS maxS minP F : ℕ} {ρ : ℚ}
    {ordOpt : Option ℕ} {mgr0 : OBMState}
    (hinit : OctaveBufferManager.init m sr minS maxS minP F ρ ordOpt = .ok mgr0) :
    mgr0.sampleRate = sr ∧
    mgr0.minSamplesPerPeriod = minS ∧ mgr0.maxSamplesPerPeriod = maxS ∧
    mgr0.minPeriodsInBuffer = minP ∧ mgr0.percentOverlap = ρ ∧
    mgr0.numOctaves = (max 1 (jsCeil (m.log2 ((maxS : ℚ) / (minS : ℚ))) + 1)).toNat ∧
    mgr0.bufferSize = 2 * minS * minP ∧ 0 < mgr0.bufferSize ∧
    mgr0.octaveBuffers =
      List.replicate mgr0.numOctaves (CircularBuffer.mkEmpty mgr0.bufferSize) ∧
    mgr0.decimationCounters = List.replicate mgr0.numOctaves 0 ∧
    mgr0.filterStates = List.replicate (mgr0.numOctaves - 1) default ∧
    mgr0.octaveSampleRates = (List.range mgr0.numOctaves).map (fun k => sr / 2 ^ k) ∧
    FilterBank.init m (minS : ℚ) (maxS : ℚ) F ρ ordOpt = .ok mgr0.filterBank := by
  simp only [OctaveBufferManager.init] at hinit
  cases hbuf : (List.range
      ((max 1 (jsCeil (m.log2 ((maxS : ℚ) / (minS : ℚ))) + 1)).toNat)).mapM
      (fun _ => CircularBuffer.make (2 * minS * minP)) with
  | error e =>
    rw [hbuf] at hinit
    simp [Except.bind] at hinit
  | ok buffers =>
    rw [hbuf] at hinit
    simp only [Except.bind] at hinit
    cases hbank : FilterBank.init m (minS : ℚ) (maxS : ℚ) F ρ ordOpt with
    | error e =>
      rw [hbank] at hinit
      simp [Except.map] at hinit
    | ok bank =>
      rw [hbank] at hinit
      simp only [Except.map] at hinit
      cases hinit
      obtain ⟨hbs, hor⟩ := mapM_make_ok _ hbuf
      have hK : 0 < (max 1 (jsCeil (m.log2 ((maxS : ℚ) / (minS : ℚ))) + 1)).toNat := by
        have h1 : (1 : ℤ) ≤ max 1 (jsCeil (m.log2 ((maxS : ℚ) / (minS : ℚ))) + 1) :=
          le_max_left _ _
        omega
      have hC : 0 < 2 * minS * minP := by
        rcases hor with hnil | hpos
        · exact absurd hnil (by simp only [List.range_eq_nil]; omega)
        · exact hpos
      refine ⟨rfl, rfl, rfl, rfl, rfl, rfl, rfl, hC, ?_, rfl, rfl, rfl, rfl⟩
      rw [hbs, List.length_range]

/-- The decimation counter advances once per input sample. -/
theorem runLevel_counter (useLP : Bool) (coeffs : List ℚ) (factor : ℕ) :
    ∀ (xs : List ℚ) (acc : LevelAcc),
      (runLevel useLP coeffs factor acc xs).counter = acc.counter + xs.length
  | [], acc => by simp [runLevel]
  | x :: rest, acc => by
    have ih := runLevel_counter useLP coeffs factor rest
      (levelStep useLP coeffs factor acc x)
    rw [runLevel, List.foldl_cons] at *
    rw [ih]
    simp [levelStep]
    omega

/-- The write count at one level: a counter at `c` that absorbs
`xs.length` further samples extends the level buffer's history by
`(c + xs.length) / factor - c / factor` writes. -/
theorem runLevel_hist_length (useLP : Bool) (coeffs : List ℚ) {factor : ℕ}
    (hf : 0 < factor) :
    ∀ (xs : List ℚ) (acc : LevelAcc),
      (runLevel useLP coeffs factor acc xs).buffer.hist.length =
        acc.buffer.hist.length + ((acc.counter + xs.length) / factor -
          acc.counter / factor)
  | [], acc => by simp [runLevel]
  | x :: rest, acc => by
    have ih := runLevel_hist_length useLP coeffs hf rest
      (levelStep useLP coeffs factor acc x)
    rw [runLevel, List.foldl_cons] at *
    rw [ih]
    have hstep_counter : (levelStep useLP coeffs factor acc x).counter =
        acc.counter + 1 := rfl
    have hstep_hist : (levelStep useLP coeffs factor acc x).buffer.hist.length =
        acc.buffer.hist.length + (if (acc.counter + 1) % factor = 0 then 1 else 0) := by
      simp only [levelStep]
      by_cases hz : (acc.counter + 1) % factor = 0
      · rw [if_pos hz, if_pos hz]
        simp [CircularBuffer.write]
      · rw [if_neg hz, if_neg hz]
        simp
    rw [hstep_hist, hstep_counter]
    have hsucc := Nat.succ_div acc.counter factor
    have hmono : (acc.counter + 1) / factor ≤ (acc.counter + 1 + rest.length) / factor :=
      Nat.div_le_div_right (by omega)
    simp only [List.length_cons]
    by_cases hz : (acc.counter + 1) % factor = 0
    · rw [if_pos hz]
      rw [if_pos ((Nat.dvd_iff_mod_eq_zero.mpr hz))] at hsucc
      have harg : acc.counter + (rest.length + 1) = acc.counter + 1 + rest.length := by
        omega
      rw [harg]
      omega
    · rw [if_neg hz]
      rw [if_neg (fun hd => hz (Nat.dvd_iff_mod_eq_zero.mp hd))]
        at hsucc
      have harg : acc.counter + (rest.length + 1) = acc.counter + 1 + rest.length := by
        omega
      rw [harg]
      omega

/-- `writeAll` appends to the history ghost. -/
theorem writeAll_hist (b : CircularBuffer) :
    ∀ xs : List ℚ, (b.writeAll xs).hist = b.hist ++ xs := by
  intro xs
  induction xs generalizing b with
  | nil => simp [CircularBuffer.writeAll]
  | cons x rest ih =>
    have := ih (b.write x)
    rw [CircularBuffer.writeAll, List.foldl_cons] at *
    rw [this]
    simp [CircularBuffer.write]

/-- One `processBlock` call advances the write-count invariant by the
block length, whatever the block and the lowpass flag. -/
theorem processBlock_countInv {n K : ℕ} {mgr : OBMState} (h : OBMCountInv n K mgr)
    (xs : List ℚ) (useLP : Bool) :
    OBMCountInv (n + xs.length) K (mgr.processBlock xs useLP) := by
  obtain ⟨hKpos, hK, hbl, hcl, h0, hlvl⟩ := h
  refine ⟨hKpos, hK, ?_, ?_, ?_, ?_⟩
  · simp [OBMState.processBlock, hK]
  · simp [OBMState.processBlock, hK]
  · rw [OBMState.processBlock]
    have h0K : 0 < mgr.numOctaves := by omega
    rw [getD_ofFn _ 0 h0K, if_pos rfl, writeAll_hist]
    simp only [List.length_append]
    omega
  · intro k hk1 hkK
    have hkK2 : k < mgr.numOctaves := by omega
    rw [OBMState.processBlock]
    obtain ⟨hck, hhk⟩ := hlvl k hk1 hkK
    constructor
    · rw [getD_ofFn_nat _ k hkK2]
      simp only []
      rw [if_neg (by omega)]
      rw [runLevel_counter]
      simp only [OBMState.levelAcc]
      omega
    · rw [getD_ofFn _ k hkK2]
      simp only []
      rw [if_neg (by omega)]
      rw [runLevel_hist_length useLP _ (Nat.pos_pow_of_pos k (by omega))]
      simp only [OBMState.levelAcc]
      rw [hck, hhk]
      have hmono : n / 2 ^ k ≤ (n + xs.length) / 2 ^ k :=
        Nat.div_le_div_right (by omega)
      omega

/-- A freshly constructed manager satisfies the invariant at 0 samples. -/
theorem init_countInv {m : JsMath} {sr : ℚ} {minS maxS minP F : ℕ} {ρ : ℚ}
    {ordOpt : Option ℕ} {mgr0 : OBMState}
    (hinit : OctaveBufferManager.init m sr minS maxS minP F ρ ordOpt = .ok mgr0) :
    OBMCountInv 0 mgr0.numOctaves mgr0 := by
  obtain ⟨-, -, -, -, -, hKdef, -, -, hbufs, hcnts, -, -, -⟩ := init_components hinit
  have hKpos : 0 < mgr0.numOctaves := by
    rw [hKdef]
    have h1 : (1 : ℤ) ≤ max 1 (jsCeil (m.log2 ((maxS : ℚ) / (minS : ℚ))) + 1) :=
      le_max_left _ _
    omega
  refine ⟨hKpos, rfl, by rw [hbufs]; simp, by rw [hcnts]; simp, ?_, ?_⟩
  · rw [hbufs, List.getD_eq_getElem _ _ (by simp [hKpos]), List.getElem_replicate]
    rfl
  · intro k hk1 hkK
    constructor
    · rw [hcnts, List.getD_eq_getElem _ _ (by simpa using hkK), List.getElem_replicate]
    · rw [hbufs, List.getD_eq_getElem _ _ (by simpa using hkK), List.getElem_replicate]
      simp [CircularBuffer.mkEmpty]

/-- The invariant is preserved across any partition into blocks. -/
theorem processBlocks_countInv {K : ℕ} (useLP : Bool) :
    ∀ (blocks : List (List ℚ)) {n : ℕ} {mgr : OBMState}, OBMCountInv n K mgr →
      OBMCountInv (n + (blocks.map List.length).sum) K
        (mgr.processBlocks blocks useLP)
  | [], n, mgr => by
    intro h
    simpa [OBMState.processBlocks]
  | b :: rest, n, mgr => by
    intro h
    have hstep := processBlock_countInv h b useLP
    have ih := processBlocks_countInv useLP rest hstep
    rw [OBMState.processBlocks, List.foldl_cons] at *
    have harg : n + b.length + (rest.map List.length).sum =
        n + ((b :: rest).map List.length).sum := by
      simp
      omega
    rw [harg] at ih
    exact ih

/-! ### Claim C2 -/

/-- C2 — confirmed.  For every successful construction, any partition
of `N` input samples into `process_block` calls (with or without the
lowpass), and every level `k < K`, level `k` has received exactly
`⌊N / 2^k⌋` writes: the decimation phase is carried by the counters
across block boundaries. -/
theorem c2_write_counts {m : JsMath} {sr : ℚ} {minS maxS minP F : ℕ} {ρ : ℚ}
    {ordOpt : Option ℕ} {mgr0 : OBMState}
    (hinit : OctaveBufferManager.init m sr minS maxS minP F ρ ordOpt = .ok mgr0)
    (blocks : List (List ℚ)) (useLP : Bool) :
    ∀ k, k < mgr0.numOctaves →
      ((mgr0.processBlocks blocks useLP).octaveBuffers.getD k default).hist.length =
        (blocks.map List.length).sum / 2 ^ k := by
  intro k hk
  have h0 := init_countInv hinit
  have h := processBlocks_countInv useLP blocks h0
  rw [Nat.zero_add] at h
  obtain ⟨-, hK, -, -, hl0, hlvl⟩ := h
  rcases Nat.eq_zero_or_pos k with rfl | hkpos
  · rw [hl0]
    simp
  · exact (hlvl k (by omega) (by omega)).2

/-- C2, witness: 5 samples over two blocks into the 3-octave manager
`mgrD` leave level k with `⌊5 / 2^k⌋` writes. -/
theorem c2_witness :
    OctaveBufferManager.init mJs 2 1 4 100 2 0 (some 2) = .ok mgrD ∧
    ∀ k, k < mgrD.numOctaves →
      ((mgrD.processBlocks [[1, 2, 3], [4, 5]] false).octaveBuffers.getD k
          default).hist.length =
        (([[1, 2, 3], [4, 5]] : List (List ℚ)).map List.length).sum / 2 ^ k := by
  have hinit : OctaveBufferManager.init mJs 2 1 4 100 2 0 (some 2) = .ok mgrD := by decide
  exact ⟨hinit, c2_write_counts hinit [[1, 2, 3], [4, 5]] false⟩

/-- Factor-1 decimation keeps every sample. -/
theorem decimateFrom_one : ∀ (c : ℕ) (xs : List ℚ), decimateFrom 1 c xs = xs
  | _, [] => rfl
  | c, x :: rest => by
    rw [decimateFrom, if_pos (Nat.mod_one _)]
    rw [decimateFrom_one (c + 1) rest]

/-- Running one level without the lowpass writes exactly the decimated
raw samples, preserving the buffer invariant. -/
theorem good_runLevel_false {s : ℕ} (coeffs : List ℚ) (factor : ℕ) :
    ∀ (xs : List ℚ) (acc : LevelAcc) {ys : List ℚ}, 0 < s → Good s ys acc.buffer →
      Good s (ys ++ decimateFrom factor acc.counter xs)
        ((runLevel false coeffs factor acc xs).buffer)
  | [], acc, ys => by
    intro hs hg
    simpa [runLevel, decimateFrom]
  | x :: rest, acc, ys => by
    intro hs hg
    rw [runLevel, List.foldl_cons]
    by_cases hz : (acc.counter + 1) % factor = 0
    · have hstep : levelStep false coeffs factor acc x =
          ⟨acc.lpState, acc.counter + 1, acc.buffer.write x⟩ := by
        simp [levelStep, hz]
      rw [hstep]
      have ih := good_runLevel_false coeffs factor rest
        ⟨acc.lpState, acc.counter + 1, acc.buffer.write x⟩ hs (good_write hs hg)
      rw [decimateFrom, if_pos hz]
      rw [show ys ++ x :: decimateFrom factor (acc.counter + 1) rest =
        (ys ++ [x]) ++ decimateFrom factor (acc.counter + 1) rest by simp]
      exact ih
    · have hstep : levelStep false coeffs factor acc x =
          ⟨acc.lpState, acc.counter + 1, acc.buffer⟩ := by
        simp [levelStep, hz]
      rw [hstep]
      have ih := good_runLevel_false coeffs factor rest
        ⟨acc.lpState, acc.counter + 1, acc.buffer⟩ hs hg
      rw [decimateFrom, if_neg hz]
      exact ih

/-! ### Claim C1 -/

/-- C1, counterexample: feeding the 256 raw samples 0,1,…,255 with the
lowpass disabled (scenario S4, 3 octaves) leaves buffer 1 holding the
ODD samples 1,3,…,255 and buffer 2 holding 3,7,…,255 — not the claimed
0,2,…,254 and 0,4,…,252: the decimation counter is incremented before
the modulo test, so the phase is offset by one. -/
theorem c1_counterexample :
    (runS4.octaveBuffers.getD 1 default).getOrdered ≠
      (List.range 128).map (fun i => (2 * i : ℚ)) ∧
    (runS4.octaveBuffers.getD 2 default).getOrdered ≠
      (List.range 64).map (fun i => (4 * i : ℚ)) ∧
    (runS4.octaveBuffers.getD 1 default).getOrdered =
      (List.range 128).map (fun i => (2 * i + 1 : ℚ)) ∧
    (runS4.octaveBuffers.getD 2 default).getOrdered =
      (List.range 64).map (fun i => (4 * i + 3 : ℚ)) :=
  ⟨by decide, by decide, by decide, by decide⟩

/-- C1 — amended.  With `use_low_pass_filter = 0`, every level `k` of a
fresh manager receives exactly every `2^k`-th raw sample counted
1-based — the samples at 0-based positions `2^k - 1, 2·2^k - 1, …` —
and the buffer content in chronological order is the tail of that
decimated stream that fits the capacity.  In the S4 instance, buffer 1
holds 1,3,…,255 in order and buffer 2 holds 3,7,…,255. -/
theorem c1_decimation_phase {m : JsMath} {sr : ℚ} {minS maxS minP F : ℕ} {ρ : ℚ}
    {ordOpt : Option ℕ} {mgr0 : OBMState}
    (hinit : OctaveBufferManager.init m sr minS maxS minP F ρ ordOpt = .ok mgr0)
    (xs : List ℚ) :
    ∀ k, k < mgr0.numOctaves →
      ((mgr0.processBlock xs false).octaveBuffers.getD k default).hist =
        decimateFrom (2 ^ k) 0 xs ∧
      ((mgr0.processBlock xs false).octaveBuffers.getD k default).getOrdered =
        (decimateFrom (2 ^ k) 0 xs).drop
          ((decimateFrom (2 ^ k) 0 xs).length - mgr0.bufferSize) := by
  intro k hk
  obtain ⟨-, -, -, -, -, -, -, hC, hbufs, hcnts, hstates, -, -⟩ := init_components hinit
  have hfreshk : mgr0.octaveBuffers.getD k default =
      CircularBuffer.mkEmpty mgr0.bufferSize := by
    rw [hbufs, List.getD_eq_getElem _ _ (by simpa using hk), List.getElem_replicate]
  rcases Nat.eq_zero_or_pos k with rfl | hkpos
  · -- level 0: the raw stream
    rw [OBMState.processBlock, getD_ofFn _ 0 hk, if_pos rfl, hfreshk]
    have hgood : Good mgr0.bufferSize xs
        ((CircularBuffer.mkEmpty mgr0.bufferSize).writeAll xs) := by
      have := good_writeAll xs hC (good_mkEmpty hC)
      simpa using this
    rw [pow_zero, decimateFrom_one]
    exact ⟨hgood.2.1, getOrdered_good hC hgood⟩
  · -- level k ≥ 1: the decimated stream
    rw [OBMState.processBlock, getD_ofFn _ k hk]
    simp only []
    rw [if_neg (by omega)]
    have hacc : mgr0.levelAcc k =
        ⟨default, 0, CircularBuffer.mkEmpty mgr0.bufferSize⟩ := by
      unfold OBMState.levelAcc
      rw [hfreshk, hcnts, hstates]
      have hk1 : k - 1 < mgr0.numOctaves - 1 := by omega
      rw [List.getD_eq_getElem _ _ (by simpa using hk1), List.getElem_replicate,
        List.getD_eq_getElem _ _ (by simpa using hk), List.getElem_replicate]
    rw [hacc]
    have hgood := good_runLevel_false (s := mgr0.bufferSize)
      (mgr0.lowpassFilters.getD (k - 1) []) (2 ^ k) xs
      ⟨default, 0, CircularBuffer.mkEmpty mgr0.bufferSize⟩ hC (good_mkEmpty hC)
    rw [List.nil_append] at hgood
    exact ⟨hgood.2.1, getOrdered_good hC hgood⟩

/-- C1, witness: the amended decimation statement evaluated on the S4
manager and input. -/
theorem c1_witness :
    OctaveBufferManager.init mJs 2 1 4 100 2 0 (some 2) = .ok mgrD ∧
    ∀ k, k < mgrD.numOctaves →
      ((mgrD.processBlock inputS4 false).octaveBuffers.getD k default).hist =
        decimateFrom (2 ^ k) 0 inputS4 ∧
      ((mgrD.processBlock inputS4 false).octaveBuffers.getD k default).getOrdered =
        (decimateFrom (2 ^ k) 0 inputS4).drop
          ((decimateFrom (2 ^ k) 0 inputS4).length - mgrD.bufferSize) := by
  have hinit : OctaveBufferManager.init mJs 2 1 4 100 2 0 (some 2) = .ok mgrD := by decide
  exact ⟨hinit, c1_decimation_phase hinit inputS4⟩

/-! ### Claim C5 -/

/-- C5, counterexample: after filling octave 0 and running one analysis
tick, `reset()` restores the buffers, the decimation counters and the
lowpass states — but the shared filter bank's biquad delay state `z1 = 1`
survives, so the reset state is NOT the freshly constructed one. -/
theorem c5_counterexample :
    mgrC5.reset ≠ mgrA ∧
    mgrC5.reset.octaveBuffers = mgrA.octaveBuffers ∧
    mgrC5.reset.decimationCounters = mgrA.decimationCounters ∧
    mgrC5.reset.filterStates = mgrA.filterStates ∧
    ((mgrC5.reset.filterBank.filters.getD 0 default).stages.getD 0 default).z1 = 1 ∧
    ((mgrA.filterBank.filters.getD 0 default).stages.getD 0 default).z1 = 0 :=
  ⟨by decide, by decide, by decide, by decide, by decide, by decide⟩

/-- C5 — amended.  `reset()` restores every manager field to the value a
freshly constructed manager with the same parameters would have — the
buffers cleared to zeroed, unfilled state, the decimation counters
zeroed, the per-level lowpass states zeroed — EXCEPT the shared filter
bank, which `reset()` does not touch: its biquad delay states survive
untouched, so the reset state is not in general the fresh one. -/
theorem c5_reset_components {m : JsMath} {sr : ℚ} {minS maxS minP F : ℕ} {ρ : ℚ}
    {ordOpt : Option ℕ} {mgr0 : OBMState}
    (hinit : OctaveBufferManager.init m sr minS maxS minP F ρ ordOpt = .ok mgr0)
    (mgr : OBMState)
    (hsr : mgr.sampleRate = mgr0.sampleRate)
    (hmin : mgr.minSamplesPerPeriod = mgr0.minSamplesPerPeriod)
    (hmax : mgr.maxSamplesPerPeriod = mgr0.maxSamplesPerPeriod)
    (hminP : mgr.minPeriodsInBuffer = mgr0.minPeriodsInBuffer)
    (hpo : mgr.percentOverlap = mgr0.percentOverlap)
    (hbs : mgr.bufferSize = mgr0.bufferSize)
    (hK : mgr.numOctaves = mgr0.numOctaves)
    (hrates : mgr.octaveSampleRates = mgr0.octaveSampleRates)
    (hlp : mgr.lowpassFilters = mgr0.lowpassFilters)
    (hwf : OBMWF mgr) :
    mgr.reset.octaveBuffers = mgr0.octaveBuffers ∧
    mgr.reset.decimationCounters = mgr0.decimationCounters ∧
    mgr.reset.filterStates = mgr0.filterStates ∧
    mgr.reset.sampleRate = mgr0.sampleRate ∧
    mgr.reset.minSamplesPerPeriod = mgr0.minSamplesPerPeriod ∧
    mgr.reset.maxSamplesPerPeriod = mgr0.maxSamplesPerPeriod ∧
    mgr.reset.minPeriodsInBuffer = mgr0.minPeriodsInBuffer ∧
    mgr.reset.percentOverlap = mgr0.percentOverlap ∧
    mgr.reset.bufferSize = mgr0.bufferSize ∧
    mgr.reset.numOctaves = mgr0.numOctaves ∧
    mgr.reset.octaveSampleRates = mgr0.octaveSampleRates ∧
    mgr.reset.lowpassFilters = mgr0.lowpassFilters ∧
    mgr.reset.filterBank = mgr.filterBank := by
  obtain ⟨-, -, -, -, -, -, -, -, hbufs0, hcnts0, hstates0, -, -⟩ := init_components hinit
  obtain ⟨hbl, hcl, hsl, hsz⟩ := hwf
  refine ⟨?_, ?_, ?_, hsr, hmin, hmax, hminP, hpo, hbs, hK, hrates, hlp, rfl⟩
  · show mgr.octaveBuffers.map CircularBuffer.clear = mgr0.octaveBuffers
    rw [hbufs0]
    refine List.eq_replicate_iff.2 ⟨by simpa [hbl] using hK, ?_⟩
    intro b hb
    obtain ⟨b0, hb0, rfl⟩ := List.mem_map.1 hb
    show CircularBuffer.clear b0 = CircularBuffer.mkEmpty mgr0.bufferSize
    rw [CircularBuffer.clear, CircularBuffer.mkEmpty, hsz b0 hb0, hbs]
  · show mgr.decimationCounters.map (fun _ => 0) = mgr0.decimationCounters
    rw [hcnts0]
    refine List.eq_replicate_iff.2 ⟨by simpa [hcl] using hK, ?_⟩
    intro b hb
    obtain ⟨b0, hb0, rfl⟩ := List.mem_map.1 hb
    rfl
  · show mgr.filterStates.map (fun _ => default) = mgr0.filterStates
    rw [hstates0]
    refine List.eq_replicate_iff.2 ⟨by simp [hsl, hK], ?_⟩
    intro b hb
    obtain ⟨b0, hb0, rfl⟩ := List.mem_map.1 hb
    rfl

/-- C5, witness: the amended reset statement evaluated on the
reachable state `mgrC5`. -/
theorem c5_witness :
    OctaveBufferManager.init mJs 2 1 2 1 3 0 (some 2) = .ok mgrA ∧
    (mgrC5.reset.octaveBuffers = mgrA.octaveBuffers ∧
      mgrC5.reset.decimationCounters = mgrA.decimationCounters ∧
      mgrC5.reset.filterStates = mgrA.filterStates ∧
      mgrC5.reset.sampleRate = mgrA.sampleRate ∧
      mgrC5.reset.minSamplesPerPeriod = mgrA.minSamplesPerPeriod ∧
      mgrC5.reset.maxSamplesPerPeriod = mgrA.maxSamplesPerPeriod ∧
      mgrC5.reset.minPeriodsInBuffer = mgrA.minPeriodsInBuffer ∧
      mgrC5.reset.percentOverlap = mgrA.percentOverlap ∧
      mgrC5.reset.bufferSize = mgrA.bufferSize ∧
      mgrC5.reset.numOctaves = mgrA.numOctaves ∧
      mgrC5.reset.octaveSampleRates = mgrA.octaveSampleRates ∧
      mgrC5.reset.lowpassFilters = mgrA.lowpassFilters ∧
      mgrC5.reset.filterBank = mgrC5.filterBank) := by
  have hinit : OctaveBufferManager.init mJs 2 1 2 1 3 0 (some 2) = .ok mgrA := by decide
  exact ⟨hinit, c5_reset_components hinit mgrC5 (by decide) (by decide) (by decide)
    (by decide) (by decide) (by decide) (by decide) (by decide) (by decide)
    ⟨by decide, by decide, by decide, by decide⟩⟩

/-- If at any searched lag index fewer than `expectedPeriod/2` products
are available, the correlation loop gives up. -/
theorem mfpCorrLoop_none (buffer : List ℚ) (ep minLag : ℤ) :
    ∀ (n start : ℕ), (∃ j, start ≤ j ∧ j < start + n ∧
      (((min ((buffer.length : ℤ) - (minLag + j)) (3 * ep) : ℤ) : ℚ) < (ep : ℚ) / 2)) →
      mfpCorrLoop buffer ep minLag n start = none := by
  intro n
  induction n with
  | zero =>
    rintro start ⟨j, h1, h2, -⟩
    omega
  | succ n ih =>
    rintro start ⟨j, h1, h2, hc⟩
    simp only [mfpCorrLoop]
    by_cases h0 :
        (((min ((buffer.length : ℤ) - (minLag + start)) (3 * ep) : ℤ) : ℚ) < (ep : ℚ) / 2)
    · rw [if_pos h0]
    · rw [if_neg h0]
      have hne : j ≠ start := by
        rintro rfl
        exact h0 hc
      rw [ih (start + 1) ⟨j, by omega, by omega, hc⟩]

/-! ### Claim C9 -/

/-- C9.  Frequency refinement falls back to the unrefined estimate in
every degenerate situation: non-positive expected lag, expected lag at
least a third of the buffer, an empty lag search interval, or too few
products available at some searched lag.  The embedding is a total
function, so no exception escapes. -/
theorem c9_refinement_fallback (buffer : List ℚ) (f S Q : ℚ) (ep rs minL maxL : ℤ)
    (hep : ep = mfpExpectedPeriod S f)
    (hrs : rs = mfpRangeSamples ep Q)
    (hminL : minL = mfpMinLag ep rs)
    (hmaxL : maxL = mfpMaxLag buffer.length ep rs)
    (h : ep ≤ 0 ∨ (buffer.length : ℚ) / 3 ≤ (ep : ℚ) ∨ maxL < minL ∨
      ∃ j, j < (maxL - minL + 1).toNat ∧
        (((min ((buffer.length : ℤ) - (minL + j)) (3 * ep) : ℤ) : ℚ) < (ep : ℚ) / 2)) :
    measureFrequencyPrecise buffer f S Q = f := by
  subst hep hrs hminL hmaxL
  simp only [measureFrequencyPrecise]
  rcases h with h1 | h2 | h3 | ⟨j, hj, hc⟩
  · rw [if_pos (Or.inl h1)]
  · rw [if_pos (Or.inr h2)]
  · by_cases hfirst : mfpExpectedPeriod S f ≤ 0 ∨
        (buffer.length : ℚ) / 3 ≤ ((mfpExpectedPeriod S f : ℤ) : ℚ)
    · rw [if_pos hfirst]
    · rw [if_neg hfirst, if_pos (le_of_lt h3)]
  · by_cases hfirst : mfpExpectedPeriod S f ≤ 0 ∨
        (buffer.length : ℚ) / 3 ≤ ((mfpExpectedPeriod S f : ℤ) : ℚ)
    · rw [if_pos hfirst]
    · rw [if_neg hfirst]
      by_cases hsecond : mfpMaxLag buffer.length (mfpExpectedPeriod S f)
            (mfpRangeSamples (mfpExpectedPeriod S f) Q) ≤
          mfpMinLag (mfpExpectedPeriod S f) (mfpRangeSamples (mfpExpectedPeriod S f) Q)
      · rw [if_pos hsecond]
      · rw [if_neg hsecond,
          mfpCorrLoop_none buffer _ _ _ 0 ⟨j, Nat.zero_le _, by omega, hc⟩]

/-- C9, witness: on the empty buffer with estimate 1 at rate 1 the
expected lag is 1 ≥ len/3 = 0, and refinement returns the estimate. -/
theorem c9_witness :
    (mfpExpectedPeriod 1 1 ≤ 0 ∨
      ((([] : List ℚ).length : ℚ) / 3 ≤ ((mfpExpectedPeriod 1 1 : ℤ) : ℚ)) ∨
      mfpMaxLag ([] : List ℚ).length (mfpExpectedPeriod 1 1)
          (mfpRangeSamples (mfpExpectedPeriod 1 1) 1) <
        mfpMinLag (mfpExpectedPeriod 1 1) (mfpRangeSamples (mfpExpectedPeriod 1 1) 1) ∨
      ∃ j, j < ((mfpMaxLag ([] : List ℚ).length (mfpExpectedPeriod 1 1)
            (mfpRangeSamples (mfpExpectedPeriod 1 1) 1) -
          mfpMinLag (mfpExpectedPeriod 1 1) (mfpRangeSamples (mfpExpectedPeriod 1 1) 1) +
          1)).toNat ∧
        (((min ((([] : List ℚ).length : ℤ) -
            (mfpMinLag (mfpExpectedPeriod 1 1) (mfpRangeSamples (mfpExpectedPeriod 1 1) 1) +
              j)) (3 * mfpExpectedPeriod 1 1) : ℤ) : ℚ) <
          ((mfpExpectedPeriod 1 1 : ℤ) : ℚ) / 2)) ∧
    measureFrequencyPrecise [] 1 1 1 = 1 := by
  have h : mfpExpectedPeriod 1 1 ≤ 0 ∨
      ((([] : List ℚ).length : ℚ) / 3 ≤ ((mfpExpectedPeriod 1 1 : ℤ) : ℚ)) ∨
      mfpMaxLag ([] : List ℚ).length (mfpExpectedPeriod 1 1)
          (mfpRangeSamples (mfpExpectedPeriod 1 1) 1) <
        mfpMinLag (mfpExpectedPeriod 1 1) (mfpRangeSamples (mfpExpectedPeriod 1 1) 1) ∨
      ∃ j, j < ((mfpMaxLag ([] : List ℚ).length (mfpExpectedPeriod 1 1)
            (mfpRangeSamples (mfpExpectedPeriod 1 1) 1) -
          mfpMinLag (mfpExpectedPeriod 1 1) (mfpRangeSamples (mfpExpectedPeriod 1 1) 1) +
          1)).toNat ∧
        (((min ((([] : List ℚ).length : ℤ) -
            (mfpMinLag (mfpExpectedPeriod 1 1) (mfpRangeSamples (mfpExpectedPeriod 1 1) 1) +
              j)) (3 * mfpExpectedPeriod 1 1) : ℤ) : ℚ) <
          ((mfpExpectedPeriod 1 1 : ℤ) : ℚ) / 2) :=
    Or.inr (Or.inl (by decide))
  exact ⟨h, c9_refinement_fallback [] 1 1 1 _ _ _ _ rfl rfl rfl rfl h⟩

/-- Components of a successful `FilterBank` construction: the guards
passed and the fields hold the computed quality, centers, and the
defaulted order. -/
theorem filterBank_init_components {m : JsMath} {minS maxS : ℚ} {F : ℕ} {ρ : ℚ}
    {ordOpt : Option ℕ} {bank : FilterBank}
    (hinit : FilterBank.init m minS maxS F ρ ordOpt = .ok bank) :
    minS < maxS ∧ 2 ≤ F ∧
    bank.numFilters = F ∧ bank.percentOverlap = ρ ∧
    bank.filterOrder = ordOpt.getD 4 ∧
    bank.Q = calculateQFromOverlap m minS maxS F ρ ∧
    bank.centerPeriods = filterBankCenters m minS maxS F := by
  simp only [FilterBank.init] at hinit
  by_cases h1 : maxS ≤ minS
  · rw [if_pos h1] at hinit
    exact absurd hinit (by simp)
  · rw [if_neg h1] at hinit
    by_cases h2 : F < 2
    · rw [if_pos h2] at hinit
      exact absurd hinit (by simp)
    · rw [if_neg h2] at hinit
      cases hm : (filterBankCenters m minS maxS F).mapM
          (fun p => ButterworthFilter.init m .bandpass p
            (calculateQFromOverlap m minS maxS F ρ) (some (ordOpt.getD 4))) with
      | error e =>
        rw [hm] at hinit
        exact absurd hinit (by simp [Except.map])
      | ok filters =>
        rw [hm] at hinit
        simp only [Except.map, Except.ok.injEq] at hinit
        subst hinit
        exact ⟨lt_of_not_le h1, le_of_not_lt h2, rfl, rfl, rfl, rfl, rfl⟩

/-! ### Claim C8 -/

/-- C8.  For a bank built with `Pmin < Pmax` and `F ≥ 2`: writing `r`
for the oracle value of `(Pmax/Pmin)^(1/(F-1))`, and assuming the
power oracle is honest on the inputs actually used (`r^i` for `i < F`,
and `r^(F-1) = Pmax/Pmin`, with `r > 1` as holds for real powers when
`Pmin < Pmax`), the stored center periods are `Pmin * r^i`, strictly
increasing, the extreme ratio is `Pmax/Pmin`, and the shared quality is
`1 / ((r-1) * (1 + clamp(ρ,0,99)/100))`. -/
theorem c8_filterbank_geometry {m : JsMath} {minS maxS : ℚ} {F : ℕ} {ρ : ℚ}
    {ordOpt : Option ℕ} {bank : FilterBank}
    (hinit : FilterBank.init m minS maxS F ρ ordOpt = .ok bank)
    (r : ℚ) (hr : r = m.pow (maxS / minS) (1 / ((F : ℚ) - 1)))
    (hpow : ∀ i, i < F → m.pow r (i : ℚ) = r ^ i)
    (hroot : r ^ (F - 1) = maxS / minS)
    (hr1 : 1 < r) (h0 : 0 < minS) :
    (∀ i, i < F → bank.centerPeriods.getD i 0 = minS * r ^ i) ∧
    (∀ i j, i < j → j < F →
      bank.centerPeriods.getD i 0 < bank.centerPeriods.getD j 0) ∧
    bank.centerPeriods.getD (F - 1) 0 / bank.centerPeriods.getD 0 0 = maxS / minS ∧
    bank.Q = 1 / ((r - 1) * (1 + jsMaxQ 0 (jsMinQ 99 ρ) / 100)) := by
  obtain ⟨hlt, hF2, -, -, -, hQ, hcent⟩ := filterBank_init_components hinit
  subst hr
  have hgetD : ∀ i, i < F → bank.centerPeriods.getD i 0 =
      minS * (m.pow (maxS / minS) (1 / ((F : ℚ) - 1))) ^ i := by
    intro i hi
    rw [hcent, filterBankCenters]
    simp only [List.getD_eq_getElem?_getD, List.getElem?_map, List.getElem?_range hi,
      Option.map_some, Option.getD_some]
    show minS * m.pow (m.pow (maxS / minS) (1 / ((F : ℚ) - 1))) (i : ℚ) =
      minS * m.pow (maxS / minS) (1 / ((F : ℚ) - 1)) ^ i
    rw [hpow i hi]
  refine ⟨hgetD, ?_, ?_, ?_⟩
  · intro i j hij hj
    rw [hgetD i (lt_trans hij hj), hgetD j hj]
    have hpowlt : (m.pow (maxS / minS) (1 / ((F : ℚ) - 1))) ^ i <
        (m.pow (maxS / minS) (1 / ((F : ℚ) - 1))) ^ j :=
      pow_lt_pow_right₀ hr1 hij
    exact mul_lt_mul_of_pos_left hpowlt h0
  · rw [hgetD (F - 1) (by omega), hgetD 0 (by omega)]
    rw [pow_zero, mul_one, hroot]
    rw [mul_comm, mul_div_assoc, div_self (ne_of_gt h0), mul_one]
  · rw [hQ, calculateQFromOverlap]

/-- C8, witness: the geometry statement evaluated on the concrete bank
`bankC8` (periods 1..4, 3 filters, ratio 2). -/
theorem c8_witness :
    FilterBank.init mJs 1 4 3 0 (some 2) = .ok bankC8 ∧
    ((∀ i, i < 3 → bankC8.centerPeriods.getD i 0 = 1 * (2 : ℚ) ^ i) ∧
      (∀ i j, i < j → j < 3 →
        bankC8.centerPeriods.getD i 0 < bankC8.centerPeriods.getD j 0) ∧
      bankC8.centerPeriods.getD (3 - 1) 0 / bankC8.centerPeriods.getD 0 0 = 4 / 1 ∧
      bankC8.Q = 1 / (((2 : ℚ) - 1) * (1 + jsMaxQ 0 (jsMinQ 99 0) / 100))) := by
  have hinit : FilterBank.init mJs 1 4 3 0 (some 2) = .ok bankC8 := by decide
  have hr : (2 : ℚ) = mJs.pow ((4 : ℚ) / 1) (1 / ((3 : ℚ) - 1)) := by decide
  exact ⟨hinit, c8_filterbank_geometry hinit 2 hr (by decide) (by decide) (by decide)
    (by decide)⟩

/-! ### Claim C10 -/

/-- C10.  When an `updateParameters` message triggers a manager rebuild
but carries no `filterOrder`, the order passed to the rebuild is the
absent message field itself (the fallback reads `message.filterOrder`
again instead of the stored value), so the rebuilt bank is constructed
with the default order 4 — whatever order was configured before. -/
theorem c10_rebuild_default_order (m : JsMath) (p : ProcessorState) (msg : ParamsMessage)
    (hno : msg.filterOrder = none)
    (hre : (msg.minSamplesPerPeriod.isSome || msg.maxSamplesPerPeriod.isSome ||
      msg.minPeriodsInBuffer.isSome) = true)
    (mgr : OBMState)
    (hinit : OctaveBufferManager.init m p.sampleRate
        (msg.minSamplesPerPeriod.getD p.bufferManager.minSamplesPerPeriod)
        (msg.maxSamplesPerPeriod.getD p.bufferManager.maxSamplesPerPeriod)
        (msg.minPeriodsInBuffer.getD p.bufferManager.minPeriodsInBuffer)
        (msg.numFilters.getD p.bufferManager.filterBank.filters.length)
        (msg.percentOverlap.getD p.bufferManager.percentOverlap)
        none = .ok mgr) :
    updateParametersProc m p msg = .ok { p with bufferManager := mgr } ∧
    mgr.filterBank.filterOrder = 4 := by
  constructor
  · simp only [updateParametersProc]
    rw [if_pos hre, hno]
    simp only []
    rw [hinit]
  · obtain ⟨-, -, -, -, -, -, -, -, -, -, -, -, hbank⟩ := init_components hinit
    obtain ⟨-, -, -, -, hord, -, -⟩ := filterBank_init_components hbank
    simpa using hord

/-- C10, witness: the processor `procC10` was configured with filter
order 6; the rebuild triggered by `msgC10` (which carries no
`filterOrder`) produces a bank of order 4. -/
theorem c10_witness :
    OctaveBufferManager.init mJs procC10.sampleRate
        (msgC10.minSamplesPerPeriod.getD procC10.bufferManager.minSamplesPerPeriod)
        (msgC10.maxSamplesPerPeriod.getD procC10.bufferManager.maxSamplesPerPeriod)
        (msgC10.minPeriodsInBuffer.getD procC10.bufferManager.minPeriodsInBuffer)
        (msgC10.numFilters.getD procC10.bufferManager.filterBank.filters.length)
        (msgC10.percentOverlap.getD procC10.bufferManager.percentOverlap)
        none = .ok mgrC10 ∧
    procC10.bufferManager.filterBank.filterOrder = 6 ∧
    (updateParametersProc mJs procC10 msgC10 = .ok { procC10 with bufferManager := mgrC10 } ∧
      mgrC10.filterBank.filterOrder = 4) := by
  have hinit : OctaveBufferManager.init mJs procC10.sampleRate
      (msgC10.minSamplesPerPeriod.getD procC10.bufferManager.minSamplesPerPeriod)
      (msgC10.maxSamplesPerPeriod.getD procC10.bufferManager.maxSamplesPerPeriod)
      (msgC10.minPeriodsInBuffer.getD procC10.bufferManager.minPeriodsInBuffer)
      (msgC10.numFilters.getD procC10.bufferManager.filterBank.filters.length)
      (msgC10.percentOverlap.getD procC10.bufferManager.percentOverlap)
      none = .ok mgrC10 := by decide
  exact ⟨hinit, by decide,
    c10_rebuild_default_order mJs procC10 msgC10 rfl (by decide) mgrC10 hinit⟩

/-- `copyFront` keeps the destination length. -/
theorem copyFront_length (dst src : List ℚ) : (copyFront dst src).length = dst.length := by
  simp [copyFront]

/-- `addWindow` keeps the destination length. -/
theorem addWindow_length (dst fh : List ℚ) (s b : ℕ) :
    (addWindow dst fh s b).length = dst.length := by
  simp [addWindow]

/-- A fold whose step keeps the accumulator length keeps the length. -/
theorem length_foldl_of_step {α : Type} (step : List ℚ → α → List ℚ)
    (hstep : ∀ wf a, (step wf a).length = wf.length) :
    ∀ (l : List α) (wf : List ℚ), (l.foldl step wf).length = wf.length := by
  intro l
  induction l with
  | nil => intro wf; rfl
  | cons a l ih =>
    intro wf
    rw [List.foldl_cons, ih, hstep]

/-- The harmonic waveform has `floor(sampleRate / frequency)` slots,
for the `sampleRate` argument actually passed in. -/
theorem processHarmonics_length (m : JsMath) (buffer : List ℚ)
    (frequency sampleRate : ℚ) (harmonicCount : ℤ) :
    (processHarmonics m buffer frequency sampleRate harmonicCount).length =
      (jsFloor (sampleRate / frequency)).toNat := by
  simp only [processHarmonics]
  refine (length_foldl_of_step _ ?_ _ _).trans ?_
  · intro wf h
    split
    · rfl
    · rw [addWindow_length]
  · rw [copyFront_length, List.length_replicate]

/-- The entry built for one peak carries a waveform of
`floor(sampleRate / frequency)` slots at the rate it was handed. -/
theorem peakEntry_waveform_length (m : JsMath) (bank : FilterBank)
    (bufferData : List ℚ) (sampleRate : ℚ) (octave : ℕ) (peak : Peak) :
    (peakEntry m bank bufferData sampleRate octave peak).waveform.length =
      (jsFloor (sampleRate /
        (peakEntry m bank bufferData sampleRate octave peak).frequency)).toNat := by
  simp only [peakEntry]
  exact processHarmonics_length m bufferData _ sampleRate _

/-! ### Claim C3 -/

/-- C3, counterexample: on `mgrC3` at threshold 0 some emitted entry
(the octave-1 peak, refined frequency 2/3) has waveform length 1,
whereas `floor(S0/f) = floor(2 / (2/3)) = 3`: the length is computed at
the detecting level's decimated rate, not the input rate. -/
theorem c3_counterexample :
    ∃ r ∈ analyzeFrequenciesResults mJs mgrC3 0,
      r.waveform.length ≠
        (jsFloor ((mgrC3.octaveSampleRates.getD 0 0) / r.frequency)).toNat := by
  decide

/-- C3 — amended.  Every entry emitted by an analysis tick carries a
waveform of length `floor(S_k / f)` where `f` is the entry's refined
frequency and `S_k` is the DETECTING octave's decimated sample rate
(`octaveSampleRates[octave]`) — not the input (level-0) rate: the
harmonic extractor is called with the level rate. -/
theorem c3_waveform_length (m : JsMath) (mgr : OBMState) (t : ℚ) :
    ∀ r ∈ analyzeFrequenciesResults m mgr t,
      r.waveform.length =
        (jsFloor ((mgr.octaveSampleRates.getD r.octave 0) / r.frequency)).toNat := by
  intro r hr
  rw [analyzeFrequenciesResults] at hr
  have hr2 : r ∈ ((List.range mgr.numOctaves).map (analyzeOctave m mgr t)).flatten :=
    (List.Perm.mem_iff (List.perm_insertionSort
      (fun a b => a.frequency ≤ b.frequency) _)).1 hr
  obtain ⟨l, hl, hrl⟩ := List.mem_flatten.1 hr2
  obtain ⟨k, hk, rfl⟩ := List.mem_map.1 hl
  simp only [analyzeOctave] at hrl
  by_cases hfull : (mgr.octaveBuffers.getD k default).isFull = true
  · rw [if_pos hfull] at hrl
    obtain ⟨peak, hpk, rfl⟩ := List.mem_map.1 hrl
    have hoct : (peakEntry m mgr.filterBank
        (analysisSnapshot (mgr.octaveBuffers.getD k default))
        (mgr.octaveSampleRates.getD k 0) k peak).octave = k := by
      simp [peakEntry]
    rw [hoct]
    exact peakEntry_waveform_length m mgr.filterBank _ _ k peak
  · rw [if_neg hfull] at hrl
    exact absurd hrl (List.not_mem_nil r)

/-- C3, witness: the amended waveform-length statement evaluated on the
first entry of the `mgrC3` tick (octave 1, rate 1, frequency 2/3,
waveform length `floor(1/(2/3)) = 1`). -/
theorem c3_witness :
    ((analyzeFrequenciesResults mJs mgrC3 0).getD 0 default ∈
      analyzeFrequenciesResults mJs mgrC3 0) ∧
    ((analyzeFrequenciesResults mJs mgrC3 0).getD 0 default).waveform.length =
      (jsFloor ((mgrC3.octaveSampleRates.getD
          ((analyzeFrequenciesResults mJs mgrC3 0).getD 0 default).octave 0) /
        ((analyzeFrequenciesResults mJs mgrC3 0).getD 0 default).frequency)).toNat := by
  have hmem : (analyzeFrequenciesResults mJs mgrC3 0).getD 0 default ∈
      analyzeFrequenciesResults mJs mgrC3 0 := by decide
  exact ⟨hmem, c3_waveform_length mJs mgrC3 0 _ hmem⟩
